import Mathlib

/-!
# mf_priority: admission control and priority assignment

A shallow embedding of `src/plugins/mf_priority.cpp`.

Modelling conventions
* `double` is binary64. A finite `double` is modelled by the rational it
  denotes; the result of each operation of the source and of each conversion
  of a string is rounded by `round_double` (to nearest, ties to even, gradual
  underflow), one rounding per operation. An infinity is represented by
  `2 ^ 1024` with its sign. A NaN, which the source can only get from `atof`,
  is represented like the negative infinity: the source applies to a `double`
  the test against 0, the product and the sum of line 83, `round`, `abs` and
  the conversion to an integer, and these give the same results for a NaN as
  for the negative infinity.
* `int` and `int64_t` are modelled by `Int`. `atoi` reduces its result to the
  range of `int` as glibc does, and the conversion of the priority to
  `int64_t` is `to_int64`. The host hands `userid` and `urgency` over as `int`
  values. Signed overflow of `current_jobs++`, `current_jobs--` and
  `urgency - 16`, undefined in C++, is not modelled: these are computed in
  `Int`.
* `std::map` is modelled by a function from keys into `Option`; `find` is
  application, `operator[]` inserts a value-initialised entry when the key is
  absent.  The source never erases a key and never iterates over a map.
* The pointer `&bank_it->second` stored in the job's aux slot is modelled by the
  key `(userid, bank)` of the map node it points to.  Dereferencing is a lookup
  in the store; a null or invalid pointer dereference is a `Fault`.
* Host calls that only fail on resource exhaustion (`flux_jobtap_job_aux_set`,
  `flux_plugin_arg_pack`, `flux_respond`) are taken to succeed.  The result of
  the host's argument unpacking is an input of each callback (`none` when the
  unpacking fails).
-/

namespace MfPriority

/-! ## Data model -/

/-- The C struct `bank_info` of the source. -/
structure bank_info where
  fairshare : ℚ
  max_jobs : Int
  current_jobs : Int
deriving DecidableEq

/-- A pointer to a `bank_info` node of `users`, identified by the node's key. -/
abbrev Ref := Int × String

/-- The two global maps `users` and `users_def_bank`. -/
structure Store where
  users : Int → Option (String → Option bank_info)
  users_def_bank : Int → Option String

/-- The store at plugin start: both maps empty. -/
def Store.empty : Store :=
  { users := fun _ => none, users_def_bank := fun _ => none }

/-- The record stored under `(userid, bank)`, if any. -/
def Store.get (s : Store) (userid : Int) (bank : String) : Option bank_info :=
  match s.users userid with
  | none => none
  | some banks => banks bank

/-- A job exception raised through `flux_jobtap_raise_exception`. -/
structure JobException where
  type : String
  severity : Nat
  note : String
deriving DecidableEq

/-- Undefined behaviour reached by a callback. `null_deref` carries the
exception that was raised before the null pointer was dereferenced. -/
inductive Fault where
  | null_deref (raised : Option JobException)
  | invalid_ref
deriving DecidableEq

/-- What a jobtap callback leaves behind: the store, the aux slot
`mf_priority:bank_info` of the current job, the return code, the message given
to `flux_jobtap_reject_job`, the exception raised on the job and the priority
packed into the output arguments. -/
structure Out where
  store : Store
  aux : Option Ref
  ret : Int
  errmsg : Option String
  raised : Option JobException
  priority : Option Int

/-! ## Constants of the host API -/

/-- Modelled from the spec: the hold sentinel of the urgency range, the constant
`FLUX_JOB_URGENCY_HOLD` of the host's job header, which is not under src/. -/
def FLUX_JOB_URGENCY_HOLD : Int := 0

/-- Modelled from the spec: the expedite sentinel of the urgency range, the
constant `FLUX_JOB_URGENCY_EXPEDITE` of the host's job header, which is not
under src/. -/
def FLUX_JOB_URGENCY_EXPEDITE : Int := 31

/-- Modelled from the spec: the minimum representable priority, the constant
`FLUX_JOB_PRIORITY_MIN` of the host's job header, which is not under src/. -/
def FLUX_JOB_PRIORITY_MIN : Int := 0

/-- Modelled from the spec: the maximum representable priority, the constant
`FLUX_JOB_PRIORITY_MAX` of the host's job header, which is not under src/. -/
def FLUX_JOB_PRIORITY_MAX : Int := 4294967295

/-! ## Binary64 arithmetic -/

/-- Rounding of a rational to the nearest integer, ties to the even one: the
default rounding of IEEE 754 arithmetic. -/
def round_half_even (x : ℚ) : Int :=
  if x - (Int.floor x : ℚ) < 1 / 2 then Int.floor x
  else if 1 / 2 < x - (Int.floor x : ℚ) then Int.floor x + 1
  else if Int.floor x % 2 = 0 then Int.floor x else Int.floor x + 1

/-- The exponent of the binade of `q` in binary64: the integer part of the
logarithm of `|q|` in base 2, and -1022 for 0 and in the subnormal range. -/
def binade (q : ℚ) : Int :=
  if q = 0 then -1022 else max (Int.log 2 |q|) (-1022)

/-- Rounding to the nearest multiple of `2 ^ (e - 52)`: the binary64 numbers
of the binade `e` are the multiples of that unit (53 significant bits). -/
def grid_round (e : Int) (q : ℚ) : ℚ :=
  (round_half_even (q / (2 : ℚ) ^ (e - 52)) : ℚ) * (2 : ℚ) ^ (e - 52)

/-- The rational that stands for the infinity of binary64: `2 ^ 1024`, one unit
above the largest finite number. -/
def double_inf : ℚ := 2 ^ 1024

/-- The rational that stands for a NaN, that of the negative infinity: a NaN
differs from 0, is not above 0, and what the source computes from it (the
sum of line 83, `round`, `abs`, the conversion to an integer) is what it
computes from the negative infinity. -/
def double_nan : ℚ := -double_inf

/-- Rounding of the exact result of an operation to binary64: to the nearest
number of the binade, ties to even, gradual underflow below `2 ^ (-1022)`;
a result that rounds beyond the largest finite number becomes an infinity. -/
def round_double (q : ℚ) : ℚ :=
  max (-double_inf) (min double_inf (grid_round (binade q) q))

/-! ## C library functions used by the source -/

/-- The C function `isspace` in the C locale. -/
def isspace (c : Char) : Bool :=
  c.toNat = 32 || (9 ≤ c.toNat && c.toNat ≤ 13)

/-- Reads the longest run of decimal digits at the head of `cs`, accumulating
their value onto `acc`; returns the value and the unread rest. -/
def read_digits : List Char → Nat → Nat × List Char
  | [], acc => (acc, [])
  | c :: cs, acc =>
    if c.isDigit then read_digits cs (10 * acc + (c.toNat - 48)) else (acc, c :: cs)

/-- The integer that `strtol` reads in base 10, before its range check:
optional white space, optional sign, decimal digits; 0 when no digit is
found. -/
def read_int (s : String) : Int :=
  match s.toList.dropWhile isspace with
  | '-' :: cs => - ((read_digits cs 0).1 : Int)
  | '+' :: cs => ((read_digits cs 0).1 : Int)
  | cs => ((read_digits cs 0).1 : Int)

/-- The C function `strtol` in base 10 with a 64-bit `long`: the integer read,
replaced by `LONG_MIN` or `LONG_MAX` when it is out of the range of `long`. -/
def strtol (s : String) : Int :=
  max (-9223372036854775808) (min 9223372036854775807 (read_int s))

/-- The conversion of an integer to the 32-bit `int`: the value of the same
residue modulo `2 ^ 32` between `INT_MIN` and `INT_MAX`. -/
def to_int (z : Int) : Int :=
  (z + 2147483648) % 4294967296 - 2147483648

/-- The C function `atoi` as glibc defines it, `(int) strtol (s, NULL, 10)`:
the number read when it fits an `int`, its residue modulo `2 ^ 32` otherwise
(the C standard leaves that case undefined). -/
def atoi (s : String) : Int :=
  to_int (strtol s)

/-- The exponent part of a decimal floating constant: `e` or `E`, an optional
sign and at least one digit; 0 when the part is absent or incomplete. -/
def read_exponent : List Char → Int
  | [] => 0
  | c :: cs =>
    if c = 'e' ∨ c = 'E' then
      match cs with
      | '-' :: ds => if (ds.head?.map Char.isDigit) = some true
                     then - ((read_digits ds 0).1 : Int) else 0
      | '+' :: ds => if (ds.head?.map Char.isDigit) = some true
                     then ((read_digits ds 0).1 : Int) else 0
      | ds => ((read_digits ds 0).1 : Int)
    else 0

/-- The magnitude of the decimal floating constant at the head of `cs`:
digits, an optional point and digits, an optional exponent; 0 when there is no
digit in the mantissa. -/
def read_decimal (cs : List Char) : ℚ :=
  let ip := read_digits cs 0
  let fp : Nat × List Char × Nat :=
    match ip.2 with
    | '.' :: r => ((read_digits r 0).1, (read_digits r 0).2,
                   r.length - (read_digits r 0).2.length)
    | r => (0, r, 0)
  if cs.length - ip.2.length + fp.2.2 = 0 then 0
  else ((ip.1 : ℚ) + (fp.1 : ℚ) / (10 : ℚ) ^ fp.2.2) * (10 : ℚ) ^ (read_exponent fp.2.1)

/-- The value of a hexadecimal digit. -/
def hex_value (c : Char) : Option Nat :=
  if c.isDigit then some (c.toNat - 48)
  else if 97 ≤ c.toNat ∧ c.toNat ≤ 102 then some (c.toNat - 87)
  else if 65 ≤ c.toNat ∧ c.toNat ≤ 70 then some (c.toNat - 55)
  else none

/-- Reads the longest run of hexadecimal digits at the head of `cs`,
accumulating their value onto `acc`; returns the value and the unread rest. -/
def read_hex_digits : List Char → Nat → Nat × List Char
  | [], acc => (acc, [])
  | c :: cs, acc =>
    match hex_value c with
    | some v => read_hex_digits cs (16 * acc + v)
    | none => (acc, c :: cs)

/-- The binary exponent part of a hexadecimal floating constant: `p` or `P`,
an optional sign and at least one decimal digit; 0 when the part is absent or
incomplete. -/
def read_binary_exponent : List Char → Int
  | [] => 0
  | c :: cs =>
    if c = 'p' ∨ c = 'P' then
      match cs with
      | '-' :: ds => if (ds.head?.map Char.isDigit) = some true
                     then - ((read_digits ds 0).1 : Int) else 0
      | '+' :: ds => if (ds.head?.map Char.isDigit) = some true
                     then ((read_digits ds 0).1 : Int) else 0
      | ds => ((read_digits ds 0).1 : Int)
    else 0

/-- The magnitude of the hexadecimal floating constant whose digits start at
the head of `cs`, after the `0x`: hexadecimal digits, an optional point and
hexadecimal digits, an optional binary exponent; `none` when there is no digit
in the mantissa. -/
def read_hexadecimal (cs : List Char) : Option ℚ :=
  let ip := read_hex_digits cs 0
  let fp : Nat × List Char × Nat :=
    match ip.2 with
    | '.' :: r => ((read_hex_digits r 0).1, (read_hex_digits r 0).2,
                   r.length - (read_hex_digits r 0).2.length)
    | r => (0, r, 0)
  if cs.length - ip.2.length + fp.2.2 = 0 then none
  else some (((ip.1 : ℚ) + (fp.1 : ℚ) / (16 : ℚ) ^ fp.2.2) *
    (2 : ℚ) ^ (read_binary_exponent fp.2.1))

/-- Whether `cs` starts with three given letters, each in its lower or its
upper case. -/
def starts_with_letters (l1 u1 l2 u2 l3 u3 : Char) : List Char → Bool
  | a :: b :: c :: _ =>
    (a = l1 || a = u1) && (b = l2 || b = u2) && (c = l3 || c = u3)
  | _ => false

/-- The magnitude that `strtod` reads after the white space and the sign:
an infinity for `inf` and `infinity` (any case of the letters), a hexadecimal
constant after `0x` or `0X`, else a decimal constant; the constant is rounded
to binary64. -/
def read_double (cs : List Char) : ℚ :=
  if starts_with_letters 'i' 'I' 'n' 'N' 'f' 'F' cs then double_inf
  else
    match cs with
    | '0' :: x :: rest =>
      if x = 'x' ∨ x = 'X' then
        match read_hexadecimal rest with
        | some q => round_double q
        | none => 0
      else round_double (read_decimal cs)
    | _ => round_double (read_decimal cs)

/-- Whether `strtod` reads a NaN after the white space and the sign: the
letters `nan` in any case. -/
def reads_nan (cs : List Char) : Bool :=
  starts_with_letters 'n' 'N' 'a' 'A' 'n' 'N' cs

/-- The C function `atof`, which is `strtod (s, NULL)`: optional white space,
optional sign, a floating constant; 0 when no conversion can be performed. -/
def atof (s : String) : ℚ :=
  match s.toList.dropWhile isspace with
  | '-' :: cs => if reads_nan cs then double_nan else - read_double cs
  | '+' :: cs => if reads_nan cs then double_nan else read_double cs
  | cs => if reads_nan cs then double_nan else read_double cs

/-- The C function `round`: nearest integer, halfway cases away from zero. The
result, an integral `double`, is given as an integer. -/
def c_round (x : ℚ) : Int :=
  if 0 ≤ x then Int.floor (x + 1 / 2) else Int.ceil (x - 1 / 2)

/-- The function `abs` of line 85, applied to the integral `double` that
`round` returns (the overload for `double`, declared by `cmath`). -/
def c_abs (z : Int) : Int := if z < 0 then -z else z

/-- The conversion of an integral `double` to `int64_t` at the `return` of
line 85. For a value out of the range of `int64_t`, an infinity included, C++
leaves the conversion undefined; the value taken is that of the x86-64
conversion instruction, the least `int64_t`. -/
def to_int64 (z : Int) : Int :=
  if -9223372036854775808 ≤ z ∧ z ≤ 9223372036854775807 then z
  else -9223372036854775808

/-! ## Store primitives -/

/-- Writes `r` into the node `users[userid][bank]`: through a pointer or
iterator for an existing node, through `operator[]` (which creates the user
entry and the node when absent) in the bulk update. -/
def Store.set (s : Store) (userid : Int) (bank : String) (r : bank_info) : Store :=
  { users := Function.update s.users userid
      (some (Function.update ((s.users userid).getD (fun _ => none)) bank (some r))),
    users_def_bank := s.users_def_bank }

/-- The expression `users[userid][bank]`: the node, value-initialised
(all fields zero) when it does not exist yet. -/
def Store.index (s : Store) (userid : Int) (bank : String) : bank_info :=
  (s.get userid bank).getD { fairshare := 0, max_jobs := 0, current_jobs := 0 }

/-- The expression `users_def_bank[userid]` read as an rvalue: the stored
name, or an empty string inserted under `userid` when there is no entry. -/
def def_bank_index (s : Store) (userid : Int) : Store × String :=
  match s.users_def_bank userid with
  | some d => (s, d)
  | none =>
    ({ users := s.users,
       users_def_bank := Function.update s.users_def_bank userid (some "") }, "")

/-! ## Helper function -/

/-- The function `priority_calculation` (lines 51-86): the priority and the
exception raised on the job, if any. The product and the sum of line 83 are
each rounded to binary64; the two `int` operands convert exactly. -/
def priority_calculation (s : Store) (aux : Option Ref) (_userid : Int)
    (_bank : Option String) (urgency : Int) : Except Fault (Int × Option JobException) :=
  let fshare_weight : Int := 100000
  if urgency = FLUX_JOB_URGENCY_HOLD then .ok (FLUX_JOB_PRIORITY_MIN, none)
  else if urgency = FLUX_JOB_URGENCY_EXPEDITE then .ok (FLUX_JOB_PRIORITY_MAX, none)
  else
    match aux with
    | none =>
      .ok (0, some { type := "plugin", severity := 3,
                     note := "mf_priority: bank info is missing; holding job" })
    | some b =>
      match s.get b.1 b.2 with
      | none => .error Fault.invalid_ref
      | some r =>
        let fshare_factor : ℚ := r.fairshare
        let priority : ℚ :=
          round_double (round_double ((fshare_weight : ℚ) * fshare_factor) +
            ((urgency - 16 : Int) : ℚ))
        .ok (to_int64 (c_abs (c_round priority)), none)

/-! ## Callbacks -/

/-- The five strings unpacked from a bulk update request. -/
structure Payload where
  userid : String
  bank : String
  default_bank : String
  fairshare : String
  max_jobs : String

/-- The callback `rec_update_cb` (lines 99-130). `msg` is the result of
`flux_request_unpack`; the second component tells whether the request was
answered with success (`true`) or with an error (`false`). -/
def rec_update_cb (s : Store) (msg : Option Payload) : Store × Bool :=
  match msg with
  | none => (s, false)
  | some m =>
    let b : bank_info := s.index (atoi m.userid) m.bank
    let s1 : Store := s.set (atoi m.userid) m.bank
      { fairshare := atof m.fairshare, max_jobs := atoi m.max_jobs,
        current_jobs := b.current_jobs }
    ({ users := s1.users,
       users_def_bank := Function.update s1.users_def_bank (atoi m.userid)
         (some m.default_bank) }, true)

/-- A JSON value of a request payload, as far as the unpacking tells values
apart: a string, an integer, or anything else. -/
inductive JVal where
  | str (s : String)
  | int (n : Int)
  | other

/-- A request payload: a JSON object, given by the value under each key. -/
abbrev Msg := String → Option JVal

/-- The conversion `s:s` of the unpack format for one key: the key has to be
present and to hold a string. -/
def unpack_string (msg : Msg) (key : String) : Option String :=
  match msg key with
  | some (JVal.str s) => some s
  | _ => none

/-- The five keys that line 106 requires. -/
def required_keys : List String :=
  ["userid", "bank", "default_bank", "fairshare", "max_jobs"]

/-- The call `flux_request_unpack` of lines 106-111, with the format
`{s:s, s:s, s:s, s:s, s:s}`: it succeeds when each of the five keys is present
and holds a string. -/
def flux_request_unpack (msg : Msg) : Option Payload :=
  match unpack_string msg "userid", unpack_string msg "bank",
        unpack_string msg "default_bank", unpack_string msg "fairshare",
        unpack_string msg "max_jobs" with
  | some uid, some bank, some default_bank, some fshare, some max_jobs =>
    some { userid := uid, bank := bank, default_bank := default_bank,
           fairshare := fshare, max_jobs := max_jobs }
  | _, _, _, _, _ => none

/-- The callback `rec_update_cb` on the request message itself. -/
def rec_update_cb_msg (s : Store) (msg : Msg) : Store × Bool :=
  rec_update_cb s (flux_request_unpack msg)

/-- The host call `flux_jobtap_reject_job`: stores the message for the
submitter and returns -1. -/
def flux_jobtap_reject_job (s : Store) (aux : Option Ref) (msg : String) : Out :=
  { store := s, aux := aux, ret := -1, errmsg := some msg, raised := none,
    priority := none }

/-- Lines 227-250 of `validate_cb`: the checks and the binding once `bank_it`
points to the node `r` stored under `(userid, bank)`. -/
def validate_cb_found (s : Store) (aux : Option Ref) (userid : Int) (bank : String)
    (r : bank_info) : Out :=
  let max_jobs : Int := r.max_jobs
  let current_jobs : Int := r.current_jobs
  let fairshare : ℚ := r.fairshare
  if fairshare = 0 then
    flux_jobtap_reject_job s aux "user fairshare value is 0"
  else if max_jobs > 0 ∧ current_jobs ≥ max_jobs then
    flux_jobtap_reject_job s aux "user has max number of jobs submitted"
  else
    { store := s.set userid bank
        { fairshare := r.fairshare, max_jobs := r.max_jobs,
          current_jobs := r.current_jobs + 1 },
      aux := some (userid, bank), ret := 0, errmsg := none, raised := none,
      priority := none }

/-- The callback `validate_cb` (lines 183-251). `args` is the result of
unpacking `userid` and the optional `bank` attribute. -/
def validate_cb (s : Store) (aux : Option Ref) (args : Option (Int × Option String)) :
    Out :=
  match args with
  | none => flux_jobtap_reject_job s aux "unable to unpack bank arg"
  | some (userid, bank) =>
    match s.users userid with
    | none => flux_jobtap_reject_job s aux "user not found in flux-accounting DB"
    | some banks =>
      match bank with
      | some bk =>
        match banks bk with
        | none => flux_jobtap_reject_job s aux "user does not belong to specified bank"
        | some r => validate_cb_found s aux userid bk r
      | none =>
        match banks (def_bank_index s userid).2 with
        | none =>
          flux_jobtap_reject_job (def_bank_index s userid).1 aux
            "user/default bank entry does not exist"
        | some r =>
          validate_cb_found (def_bank_index s userid).1 aux userid
            (def_bank_index s userid).2 r

/-- The callback `priority_cb` (lines 137-175). `args` is the result of
unpacking `urgency`, `userid` and the optional `bank` attribute. -/
def priority_cb (s : Store) (aux : Option Ref) (args : Option (Int × Int × Option String)) :
    Except Fault Out :=
  match args with
  | none =>
    .ok { store := s, aux := aux, ret := -1, errmsg := none, raised := none,
          priority := none }
  | some (urgency, userid, bank) =>
    match priority_calculation s aux userid bank urgency with
    | .error f => .error f
    | .ok (priority, exc) =>
      .ok { store := s, aux := aux, ret := 0, errmsg := none, raised := exc,
            priority := some priority }

/-- The callback `inactive_cb` (lines 254-286). `args` is the result of
unpacking `userid`. -/
def inactive_cb (s : Store) (aux : Option Ref) (args : Option Int) : Except Fault Out :=
  match args with
  | none =>
    .ok { store := s, aux := aux, ret := -1, errmsg := none, raised := none,
          priority := none }
  | some _userid =>
    match aux with
    | none =>
      .error (Fault.null_deref
        (some { type := "plugin", severity := 3,
                note := "mf_priority: bank info is missing" }))
    | some b =>
      match s.get b.1 b.2 with
      | none => .error Fault.invalid_ref
      | some r =>
        .ok { store := s.set b.1 b.2
                { fairshare := r.fairshare, max_jobs := r.max_jobs,
                  current_jobs := r.current_jobs - 1 },
              aux := some b, ret := 0, errmsg := none, raised := none,
              priority := none }

/-! ## The plugin driven by the host -/

/-- The plugin's state together with the aux slot `mf_priority:bank_info` of
every job, indexed by job id. -/
structure Sys where
  store : Store
  aux : Nat → Option Ref

/-- One invocation by the host: a bulk update request, or a callback of the
table `tab` on the current job `job`. -/
inductive Op where
  | rec_update (msg : Option Payload)
  | validate (job : Nat) (args : Option (Int × Option String))
  | priority (job : Nat) (args : Option (Int × Int × Option String))
  | inactive (job : Nat) (args : Option Int)

/-- What the host observes of one invocation. -/
inductive Event where
  | updated (answered_ok : Bool)
  | admitted (job : Nat) (b : Ref)
  | rejected (job : Nat) (errmsg : String)
  | priority_set (job : Nat) (priority : Int) (raised : Option JobException)
  | released (job : Nat) (b : Ref)
  | failed (job : Nat)
deriving DecidableEq

/-- The event reported for a finished `validate_cb`. -/
def validate_event (job : Nat) (o : Out) : Event :=
  match o.errmsg, o.aux with
  | some msg, _ => Event.rejected job msg
  | none, some b => Event.admitted job b
  | none, none => Event.failed job

/-- Runs one invocation; a fault ends the run. -/
def step (t : Sys) : Op → Except Fault (Sys × Event)
  | Op.rec_update msg =>
    .ok ({ store := (rec_update_cb t.store msg).1, aux := t.aux },
         Event.updated (rec_update_cb t.store msg).2)
  | Op.validate job args =>
    let o := validate_cb t.store (t.aux job) args
    .ok ({ store := o.store, aux := Function.update t.aux job o.aux },
         validate_event job o)
  | Op.priority job args =>
    match priority_cb t.store (t.aux job) args with
    | .error f => .error f
    | .ok o =>
      .ok ({ store := o.store, aux := Function.update t.aux job o.aux },
           match o.priority with
           | some p => Event.priority_set job p o.raised
           | none => Event.failed job)
  | Op.inactive job args =>
    match inactive_cb t.store (t.aux job) args with
    | .error f => .error f
    | .ok o =>
      .ok ({ store := o.store, aux := Function.update t.aux job o.aux },
           match args, t.aux job with
           | some _, some b => Event.released job b
           | _, _ => Event.failed job)

/-- Runs a sequence of invocations from `t`, collecting the events. -/
def run (t : Sys) : List Op → Except Fault (Sys × List Event)
  | [] => .ok (t, [])
  | op :: ops =>
    match step t op with
    | .error f => .error f
    | .ok (t1, e) =>
      match run t1 ops with
      | .error f => .error f
      | .ok (t2, es) => .ok (t2, e :: es)

/-- The plugin at its start: both maps empty, no job bound. -/
def Sys.start : Sys :=
  { store := Store.empty, aux := fun _ => none }

/-- The value of `current_jobs` of the record under `(userid, bank)`. -/
def Sys.current_jobs (t : Sys) (userid : Int) (bank : String) : Option Int :=
  (t.store.get userid bank).map bank_info.current_jobs


/-! ## Predicates used in the statements -/

/-- The admission input `(userid, bank)` names the record under `(userid, b)`:
the bank is supplied as `b`, or it is omitted while the default bank stored for
the user is `b`. -/
def resolves_to (s : Store) (userid : Int) (bank : Option String) (b : String) : Prop :=
  bank = some b ∨ (bank = none ∧ s.users_def_bank userid = some b)

instance (s : Store) (userid : Int) (bank : Option String) (b : String) :
    Decidable (resolves_to s userid bank b) := by
  unfold resolves_to; infer_instance

/-- The bank name `validate_cb` looks up under the user (lines 214-221): the
bank supplied, or else the value of `users_def_bank[userid]`. -/
def resolved_bank (s : Store) (userid : Int) (bank : Option String) : String :=
  match bank with
  | some b => b
  | none => (def_bank_index s userid).2

/-- The store in which `validate_cb` looks the bank up: the store itself when
a bank is supplied, the store after the evaluation of `users_def_bank[userid]`
(line 220) when it is not. -/
def lookup_store (s : Store) (userid : Int) (bank : Option String) : Store :=
  match bank with
  | some _ => s
  | none => (def_bank_index s userid).1

/-- Every bound aux slot points to a node of `users`. -/
def Sys.valid (t : Sys) : Prop :=
  ∀ (j : Nat) (ref : Ref), t.aux j = some ref → ∃ r, t.store.get ref.1 ref.2 = some r

/-- Every user with an entry in `users` has an entry in `users_def_bank`, as
after any bulk update, which writes both maps under the same user. -/
def Store.consistent (s : Store) : Prop :=
  ∀ u, s.users u ≠ none → s.users_def_bank u ≠ none

/-- Every record of the store holds a fairshare and a `max_jobs` that are not
negative. -/
def Store.nonneg (s : Store) : Prop :=
  ∀ u b r, s.get u b = some r → 0 ≤ r.fairshare ∧ 0 ≤ r.max_jobs

/-- Number of admissions bound to the record `b` among the events `es`. -/
def admissions (b : Ref) (es : List Event) : Nat :=
  es.countP fun e =>
    match e with
    | Event.admitted _ b1 => decide (b1 = b)
    | _ => false

/-- Number of cleanups of jobs bound to the record `b` among the events `es`. -/
def cleanups (b : Ref) (es : List Event) : Nat :=
  es.countP fun e =>
    match e with
    | Event.released _ b1 => decide (b1 = b)
    | _ => false

/-- The discipline on cleanups: `inactive_cb` runs only for a job of `live`,
the jobs admitted earlier and not cleaned up since. -/
def discipline (live : List Nat) : Op → Bool
  | Op.inactive job _ => live.contains job
  | _ => true

/-- The jobs admitted and not cleaned up, after one more event. -/
def next_live (live : List Nat) : Event → List Nat
  | Event.admitted job _ => live.insert job
  | Event.released job _ => live.erase job
  | _ => live

/-- The sequence `ops`, run from `t` with the jobs `live` admitted and not
cleaned up, cleans up only such jobs, each once per admission. -/
def lifecycle (t : Sys) (live : List Nat) : List Op → Bool
  | [] => true
  | op :: ops =>
    discipline live op &&
      match step t op with
      | .error _ => true
      | .ok (t1, e) => lifecycle t1 (next_live live e) ops

/-- An event that is neither an admission nor a cleanup. -/
def Event.neutral (e : Event) : Prop :=
  (∀ b, admissions b [e] = 0) ∧ (∀ b, cleanups b [e] = 0) ∧
    (∀ live, next_live live e = live)

/-- Number of jobs of `live` whose aux slot points to the record `b`. -/
def bound_jobs (aux : Nat → Option Ref) (b : Ref) (live : List Nat) : Nat :=
  live.countP fun j => decide (aux j = some b)

/-- The state `t` is valid and `live` lists, without repetition, jobs that are
bound. -/
def Sys.tracks (t : Sys) (live : List Nat) : Prop :=
  t.valid ∧ live.Nodup ∧ ∀ j ∈ live, ∃ ref, t.aux j = some ref

/-! ## Sample states and requests -/

/-- The bulk update request that registers user 42 under bank b1 with
fairshare 0.002 and at most 2 active jobs, b1 being the default bank. -/
def scenario_payload : Payload :=
  { userid := "42", bank := "b1", default_bank := "b1", fairshare := "0.002",
    max_jobs := "2" }

/-- The plugin after that bulk update on the empty store, no job bound yet. -/
def scenario_start : Sys :=
  { store := (rec_update_cb Store.empty (some scenario_payload)).1,
    aux := fun _ => none }

/-- A run of the scenario: job 1 is admitted through the default bank, job 2
through the bank named, job 1 is cleaned up, then a bulk update of the same
record arrives. -/
def scenario_ops : List Op :=
  [Op.validate 1 (some (42, none)),
   Op.validate 2 (some (42, some "b1")),
   Op.inactive 1 (some 42),
   Op.rec_update (some scenario_payload)]

/-- The scenario's start with job 1 bound to the record of user 42 under
bank b1. -/
def scenario_bound : Sys :=
  { store := scenario_start.store,
    aux := fun j => if j = 1 then some (42, "b1") else none }

/-- The scenario after the admission of job 1 through the default bank. -/
def scenario_admitted : Sys :=
  { store := scenario_start.store.set 42 "b1"
      { fairshare := 1152921504606847 / 576460752303423488, max_jobs := 2, current_jobs := 0 + 1 },
    aux := Function.update scenario_start.aux 1 (some (42, "b1")) }

/-- The scenario after the further admission of job 2 and a bulk update of the
same record. -/
def scenario_later : Sys :=
  { store := (rec_update_cb
      (scenario_admitted.store.set 42 "b1"
        { fairshare := 1152921504606847 / 576460752303423488,
          max_jobs := 2, current_jobs := 0 + 1 + 1 })
      (some scenario_payload)).1,
    aux := Function.update scenario_admitted.aux 2 (some (42, "b1")) }

/-- A store in which user 1 holds, under bank a, a record with fairshare 1 and
no quota; bank a is the default bank. -/
def plain_store : Store :=
  { users := fun u =>
      if u = 1 then
        some (fun b => if b = "a" then
          some { fairshare := 1, max_jobs := 0, current_jobs := 0 } else none)
      else none,
    users_def_bank := fun u => if u = 1 then some "a" else none }

/-- A store in which user 1 holds, under bank a, a record with fairshare 1, no
quota and a thousand million current jobs; bank a is the default bank. -/
def crowded_store : Store :=
  { users := fun u =>
      if u = 1 then
        some (fun b => if b = "a" then
          some { fairshare := 1, max_jobs := 0, current_jobs := 1000000000 } else none)
      else none,
    users_def_bank := fun u => if u = 1 then some "a" else none }

/-- A store in which user 1 holds, under bank a, a record with fairshare 0
whose quota of one job is used up; bank a is the default bank. -/
def exhausted_store : Store :=
  { users := fun u =>
      if u = 1 then
        some (fun b => if b = "a" then
          some { fairshare := 0, max_jobs := 1, current_jobs := 1 } else none)
      else none,
    users_def_bank := fun u => if u = 1 then some "a" else none }

/-- A store in which user 1 holds a record with fairshare 0.00001 under bank a
and a record with fairshare 0.0001 under bank b, each the binary64 number
nearest to the decimal. -/
def low_store : Store :=
  { users := fun u =>
      if u = 1 then
        some (fun b =>
          if b = "a" then
            some { fairshare := 5902958103587057 / 590295810358705651712, max_jobs := 0,
                   current_jobs := 1 }
          else if b = "b" then
            some { fairshare := 7378697629483821 / 73786976294838206464, max_jobs := 0,
                   current_jobs := 1 }
          else none)
      else none,
    users_def_bank := fun u => if u = 1 then some "a" else none }

/-- A store with no record at all in which user 5 still has a default bank
entry. -/
def ghost_store : Store :=
  { users := fun _ => none,
    users_def_bank := fun u => if u = 5 then some "x" else none }

/-- A bulk update request for user 42 and bank b1 with the fairshare -0.5 and
the `max_jobs` -3. -/
def negative_payload : Payload :=
  { userid := "42", bank := "b1", default_bank := "b1", fairshare := "-0.5",
    max_jobs := "-3" }

/-- A request in which the key `max_jobs` is missing. -/
def short_msg : Msg := fun key =>
  if key = "userid" then some (JVal.str "42")
  else if key = "bank" then some (JVal.str "b1")
  else if key = "default_bank" then some (JVal.str "b1")
  else if key = "fairshare" then some (JVal.str "0.002")
  else none

/-- A request with all five keys in which no number can be read from
`userid`, `fairshare` and `max_jobs`. -/
def junk_msg : Msg := fun key =>
  if key = "userid" then some (JVal.str "x1")
  else if key = "bank" then some (JVal.str "b1")
  else if key = "default_bank" then some (JVal.str "b1")
  else if key = "fairshare" then some (JVal.str "abc")
  else if key = "max_jobs" then some (JVal.str "")
  else none

/-- A bulk update request that registers user 42 under bank b1 and names b2,
under which the user holds no record, as the default bank. -/
def stray_payload : Payload :=
  { userid := "42", bank := "b1", default_bank := "b2", fairshare := "0.002",
    max_jobs := "2" }

/-- The plugin after that bulk update on the empty store, no job bound. -/
def stray_start : Sys :=
  { store := (rec_update_cb Store.empty (some stray_payload)).1,
    aux := fun _ => none }

theorem round_half_even_bounds (x : ℚ) :
    Int.floor x ≤ round_half_even x ∧ round_half_even x ≤ Int.floor x + 1 := by
  unfold round_half_even
  split_ifs <;> constructor <;> omega

theorem round_half_even_intCast (n : Int) : round_half_even (n : ℚ) = n := by
  unfold round_half_even
  simp

theorem round_half_even_eq (x : ℚ) (m : Int) (h : |x - (m : ℚ)| < 1 / 2) :
    round_half_even x = m := by
  rw [abs_lt] at h
  obtain ⟨h1, h2⟩ := h
  by_cases hx : (m : ℚ) ≤ x
  · have hf : Int.floor x = m := by
      rw [Int.floor_eq_iff]
      constructor <;> linarith
    unfold round_half_even
    rw [hf]
    have : x - (m : ℚ) < 1 / 2 := by linarith
    rw [if_pos this]
  · have hx2 : x < (m : ℚ) := not_le.mp hx
    have hf : Int.floor x = m - 1 := by
      rw [Int.floor_eq_iff]
      push_cast
      constructor <;> linarith
    unfold round_half_even
    rw [hf]
    push_cast
    have h3 : ¬ (x - ((m : ℚ) - 1) < 1 / 2) := by
      intro hc; linarith
    have h4 : 1 / 2 < x - ((m : ℚ) - 1) := by linarith
    simp only [h3, h4, if_true, if_false]
    omega

theorem round_half_even_mono (x y : ℚ) (h : x ≤ y) :
    round_half_even x ≤ round_half_even y := by
  have hfl : Int.floor x ≤ Int.floor y := Int.floor_mono h
  by_cases hlt : Int.floor x < Int.floor y
  · have h1 := (round_half_even_bounds x).2
    have h2 := (round_half_even_bounds y).1
    omega
  · have heq : Int.floor x = Int.floor y := by omega
    unfold round_half_even
    rw [heq]
    split_ifs <;> first | omega | (exfalso; linarith)

/-- The numbers of the grid are fixed by the rounding to the grid. -/
theorem grid_round_fixed (e : Int) (n : Int) (q : ℚ)
    (h : q = (n : ℚ) * (2 : ℚ) ^ (e - 52)) : grid_round e q = q := by
  have hpos : (0 : ℚ) < (2 : ℚ) ^ (e - 52) := by positivity
  unfold grid_round
  have hq : q / (2 : ℚ) ^ (e - 52) = (n : ℚ) := by
    rw [h]; field_simp
  rw [hq, round_half_even_intCast, h]

theorem grid_round_mono (e : Int) (x y : ℚ) (h : x ≤ y) :
    grid_round e x ≤ grid_round e y := by
  have hpos : (0 : ℚ) < (2 : ℚ) ^ (e - 52) := by positivity
  unfold grid_round
  apply mul_le_mul_of_nonneg_right _ hpos.le
  exact_mod_cast round_half_even_mono _ _ (div_le_div_of_nonneg_right h hpos.le)

theorem zpow_eq_int_mul (e j : Int) (h : e - 52 ≤ j) :
    ∃ n : Int, (2 : ℚ) ^ j = (n : ℚ) * (2 : ℚ) ^ (e - 52) := by
  refine ⟨2 ^ (j - (e - 52)).toNat, ?_⟩
  have hk : ((j - (e - 52)).toNat : Int) = j - (e - 52) := Int.toNat_of_nonneg (by omega)
  have h2 : (2 : ℚ) ≠ 0 := by norm_num
  push_cast
  rw [← zpow_natCast, hk, ← zpow_add₀ h2]
  congr 1
  ring

theorem grid_round_zpow (e j : Int) (h : e - 52 ≤ j) :
    grid_round e ((2 : ℚ) ^ j) = (2 : ℚ) ^ j := by
  obtain ⟨n, hn⟩ := zpow_eq_int_mul e j h
  exact grid_round_fixed e n _ hn

theorem grid_round_neg_zpow (e j : Int) (h : e - 52 ≤ j) :
    grid_round e (-(2 : ℚ) ^ j) = -(2 : ℚ) ^ j := by
  obtain ⟨n, hn⟩ := zpow_eq_int_mul e j h
  exact grid_round_fixed e (-n) _ (by rw [hn]; push_cast; ring)

theorem grid_round_intCast (e : Int) (n : Int) (he : e ≤ 52) :
    grid_round e (n : ℚ) = (n : ℚ) := by
  obtain ⟨k, hk⟩ := zpow_eq_int_mul e 0 (by omega)
  refine grid_round_fixed e (n * k) _ ?_
  push_cast
  rw [mul_assoc, ← hk]
  simp

theorem binade_ge (q : ℚ) : -1022 ≤ binade q := by
  unfold binade
  split_ifs
  · exact le_refl _
  · exact le_max_right _ _

theorem abs_lt_binade (q : ℚ) : |q| < (2 : ℚ) ^ (binade q + 1) := by
  unfold binade
  split_ifs with h
  · rw [h]; simp; positivity
  · have h1 : |q| < ((2 : ℕ) : ℚ) ^ (Int.log 2 |q| + 1) :=
      Int.lt_zpow_succ_log_self (by norm_num) _
    refine lt_of_lt_of_le h1 ?_
    push_cast
    exact zpow_le_zpow_right₀ (by norm_num) (by
      have := le_max_left (Int.log 2 |q|) (-1022)
      omega)

theorem binade_le_abs (q : ℚ) (h : -1022 < binade q) : (2 : ℚ) ^ (binade q) ≤ |q| := by
  unfold binade at h ⊢
  split_ifs at h ⊢ with h0
  · omega
  · have hlog : -1022 < Int.log 2 |q| := by
      rcases max_cases (Int.log 2 |q|) (-1022) with ⟨h1, _⟩ | ⟨h1, _⟩
      · rw [h1] at h; exact h
      · rw [h1] at h; omega
    rw [max_eq_left hlog.le]
    have := Int.zpow_log_le_self (b := 2) (r := |q|) (by norm_num) (abs_pos.mpr h0)
    simpa using this

theorem binade_le_of_abs_lt (q : ℚ) (k : Int) (hk : -1022 ≤ k)
    (h : |q| < (2 : ℚ) ^ (k + 1)) : binade q ≤ k := by
  unfold binade
  split_ifs with h0
  · exact hk
  · have hlog : Int.log 2 |q| < k + 1 := by
      rw [← Int.lt_zpow_iff_log_lt (by norm_num) (abs_pos.mpr h0)]
      simpa using h
    exact max_le (by omega) hk

theorem binade_eq (q : ℚ) (e : Int) (he : -1022 ≤ e) (hlo : (2 : ℚ) ^ e ≤ |q|)
    (hhi : |q| < (2 : ℚ) ^ (e + 1)) : binade q = e := by
  have hq : q ≠ 0 := by
    intro h0
    rw [h0, abs_zero] at hlo
    have : (0 : ℚ) < (2 : ℚ) ^ e := by positivity
    linarith
  apply le_antisymm (binade_le_of_abs_lt q e he hhi)
  unfold binade
  rw [if_neg hq]
  refine le_trans ?_ (le_max_left _ _)
  rw [← Int.zpow_le_iff_le_log (by norm_num) (abs_pos.mpr hq)]
  simpa using hlo

theorem grid_round_binade_mono (x y : ℚ) (h : x ≤ y) :
    grid_round (binade x) x ≤ grid_round (binade y) y := by
  rcases lt_trichotomy (binade x) (binade y) with hab | hab | hab
  · have hy1 : (2 : ℚ) ^ (binade y) ≤ |y| :=
      binade_le_abs y (lt_of_le_of_lt (binade_ge x) hab)
    have hx1 := abs_lt_binade x
    have hpow : (2 : ℚ) ^ (binade x + 1) ≤ (2 : ℚ) ^ (binade y) :=
      zpow_le_zpow_right₀ (by norm_num) (by omega)
    have hypos : 0 < y := by
      by_contra hneg
      have hy0 : y ≤ 0 := not_lt.mp hneg
      have : |y| ≤ |x| := by
        rw [abs_of_nonpos hy0, abs_of_nonpos (le_trans h hy0)]
        linarith
      linarith
    rw [abs_of_pos hypos] at hy1
    have h1 : grid_round (binade x) x ≤ (2 : ℚ) ^ (binade x + 1) := by
      rw [← grid_round_zpow (binade x) (binade x + 1) (by omega)]
      exact grid_round_mono _ _ _ (le_trans (le_abs_self x) hx1.le)
    have h2 : (2 : ℚ) ^ (binade y) ≤ grid_round (binade y) y := by
      rw [← grid_round_zpow (binade y) (binade y) (by omega)]
      exact grid_round_mono _ _ _ hy1
    linarith
  · rw [hab]
    exact grid_round_mono _ _ _ h
  · have hx1 : (2 : ℚ) ^ (binade x) ≤ |x| :=
      binade_le_abs x (lt_of_le_of_lt (binade_ge y) hab)
    have hy1 := abs_lt_binade y
    have hpow : (2 : ℚ) ^ (binade y + 1) ≤ (2 : ℚ) ^ (binade x) :=
      zpow_le_zpow_right₀ (by norm_num) (by omega)
    have hxneg : x < 0 := by
      by_contra hpos
      have hx0 : 0 ≤ x := not_lt.mp hpos
      have : |x| ≤ |y| := by
        rw [abs_of_nonneg hx0, abs_of_nonneg (le_trans hx0 h)]
        exact h
      linarith
    rw [abs_of_neg hxneg] at hx1
    have h1 : grid_round (binade x) x ≤ -(2 : ℚ) ^ (binade x) := by
      rw [← grid_round_neg_zpow (binade x) (binade x) (by omega)]
      exact grid_round_mono _ _ _ (by linarith)
    have h2 : -(2 : ℚ) ^ (binade y + 1) ≤ grid_round (binade y) y := by
      rw [← grid_round_neg_zpow (binade y) (binade y + 1) (by omega)]
      exact grid_round_mono _ _ _ (by linarith [neg_abs_le y])
    linarith

/-- The rounding to binary64 is monotone. -/
theorem round_double_mono (x y : ℚ) (h : x ≤ y) : round_double x ≤ round_double y := by
  unfold round_double
  exact max_le_max (le_refl _) (min_le_min (le_refl _) (grid_round_binade_mono x y h))

theorem double_inf_pos : (0 : ℚ) < double_inf := by
  unfold double_inf; positivity

/-- The integers below `2 ^ 53` in absolute value are binary64 numbers. -/
theorem round_double_intCast (n : Int) (h : |(n : ℚ)| < 2 ^ 53) :
    round_double (n : ℚ) = (n : ℚ) := by
  unfold round_double
  have hg : grid_round (binade (n : ℚ)) (n : ℚ) = (n : ℚ) := by
    apply grid_round_intCast
    apply binade_le_of_abs_lt _ 52 (by norm_num)
    norm_num
    exact h
  rw [hg]
  have hbig : (2 : ℚ) ^ 53 < double_inf := by
    unfold double_inf; norm_num
  rw [abs_lt] at h
  rw [min_eq_right (by linarith), max_eq_right (by linarith)]

/-- The value of the rounding to binary64, from the binade `e` of `q` and the
integer `m` nearest to `q` in units of `2 ^ (e - 52)`. -/
theorem round_double_eval (q : ℚ) (e m : Int) (he : -1022 ≤ e) (he2 : e ≤ 1023)
    (hlo : (2 : ℚ) ^ e ≤ |q|) (hhi : |q| < (2 : ℚ) ^ (e + 1))
    (hm : |q / (2 : ℚ) ^ (e - 52) - (m : ℚ)| < 1 / 2) :
    round_double q = (m : ℚ) * (2 : ℚ) ^ (e - 52) := by
  have hb := binade_eq q e he hlo hhi
  have hg : grid_round (binade q) q = (m : ℚ) * (2 : ℚ) ^ (e - 52) := by
    unfold grid_round
    rw [hb, round_half_even_eq _ m hm]
  have hup : grid_round (binade q) q ≤ (2 : ℚ) ^ (e + 1) := by
    rw [hb, ← grid_round_zpow e (e + 1) (by omega)]
    exact grid_round_mono _ _ _ (le_trans (le_abs_self q) hhi.le)
  have hdn : -(2 : ℚ) ^ (e + 1) ≤ grid_round (binade q) q := by
    rw [hb, ← grid_round_neg_zpow e (e + 1) (by omega)]
    exact grid_round_mono _ _ _ (by linarith [neg_abs_le q])
  have hpow : (2 : ℚ) ^ (e + 1) ≤ double_inf := by
    unfold double_inf
    have : (2 : ℚ) ^ (e + 1) ≤ (2 : ℚ) ^ ((1024 : ℕ) : Int) :=
      zpow_le_zpow_right₀ (by norm_num) (by push_cast; omega)
    rwa [zpow_natCast] at this
  unfold round_double
  rw [min_eq_right (by linarith), max_eq_right (by linarith), hg]

/-! ## Lemmas on the store primitives -/

theorem Store.get_set_same (s : Store) (u : Int) (b : String) (r : bank_info) :
    (s.set u b r).get u b = some r := by
  simp [Store.get, Store.set]

theorem Store.get_set_of_ne (s : Store) (u : Int) (b : String) (r : bank_info)
    (u1 : Int) (b1 : String) (h : ¬ (u1 = u ∧ b1 = b)) :
    (s.set u b r).get u1 b1 = s.get u1 b1 := by
  unfold Store.get Store.set
  by_cases hu : u1 = u
  · subst hu
    have hb : b1 ≠ b := fun hb => h ⟨rfl, hb⟩
    cases hs : s.users u1 <;> simp [Function.update, hb]
  · simp [Function.update, hu]

theorem Store.set_users_def_bank (s : Store) (u : Int) (b : String) (r : bank_info) :
    (s.set u b r).users_def_bank = s.users_def_bank := rfl

theorem validate_cb_of_resolves (s : Store) (aux : Option Ref) (u : Int)
    (bank : Option String) (b : String) (r : bank_info)
    (hget : s.get u b = some r) (hres : resolves_to s u bank b) :
    validate_cb s aux (some (u, bank)) = validate_cb_found s aux u b r := by
  unfold Store.get at hget
  cases hu : s.users u with
  | none => simp [hu] at hget
  | some banks =>
    simp only [hu] at hget
    rcases hres with rfl | ⟨rfl, hd⟩
    · simp [validate_cb, hu, hget]
    · simp [validate_cb, hu, def_bank_index, hd, hget]

theorem validate_cb_found_accept (s : Store) (aux : Option Ref) (u : Int) (b : String)
    (r : bank_info) (hf : r.fairshare ≠ 0)
    (hq : r.max_jobs ≤ 0 ∨ r.current_jobs < r.max_jobs) :
    validate_cb_found s aux u b r =
      { store := s.set u b { fairshare := r.fairshare, max_jobs := r.max_jobs,
                             current_jobs := r.current_jobs + 1 },
        aux := some (u, b), ret := 0, errmsg := none, raised := none, priority := none } := by
  have hq2 : ¬ (r.max_jobs > 0 ∧ r.current_jobs ≥ r.max_jobs) := by
    rintro ⟨h1, h2⟩
    rcases hq with h | h <;> omega
  simp [validate_cb_found, hf, hq2]

theorem validate_cb_found_quota (s : Store) (aux : Option Ref) (u : Int) (b : String)
    (r : bank_info) (hf : r.fairshare ≠ 0)
    (hq : 0 < r.max_jobs ∧ r.max_jobs ≤ r.current_jobs) :
    validate_cb_found s aux u b r =
      flux_jobtap_reject_job s aux "user has max number of jobs submitted" := by
  have hq2 : (r.max_jobs > 0 ∧ r.current_jobs ≥ r.max_jobs) := hq
  simp [validate_cb_found, hf, hq2]

/-! ## Single invocations -/

theorem step_validate_accept (t : Sys) (u : Int) (b : String) (r : bank_info)
    (job : Nat) (bank : Option String)
    (hget : t.store.get u b = some r) (hres : resolves_to t.store u bank b)
    (hf : r.fairshare ≠ 0) (hq : r.max_jobs ≤ 0 ∨ r.current_jobs < r.max_jobs) :
    step t (Op.validate job (some (u, bank))) =
      .ok ({ store := t.store.set u b { fairshare := r.fairshare, max_jobs := r.max_jobs,
                                        current_jobs := r.current_jobs + 1 },
             aux := Function.update t.aux job (some (u, b)) },
           Event.admitted job (u, b)) := by
  simp [step, validate_cb_of_resolves t.store (t.aux job) u bank b r hget hres,
    validate_cb_found_accept t.store (t.aux job) u b r hf hq, validate_event]

theorem step_validate_quota (t : Sys) (u : Int) (b : String) (r : bank_info)
    (job : Nat) (bank : Option String)
    (hget : t.store.get u b = some r) (hres : resolves_to t.store u bank b)
    (hf : r.fairshare ≠ 0) (hq : 0 < r.max_jobs ∧ r.max_jobs ≤ r.current_jobs) :
    step t (Op.validate job (some (u, bank))) =
      .ok (t, Event.rejected job "user has max number of jobs submitted") := by
  simp [step, validate_cb_of_resolves t.store (t.aux job) u bank b r hget hres,
    validate_cb_found_quota t.store (t.aux job) u b r hf hq, validate_event,
    flux_jobtap_reject_job]

theorem step_inactive_bound (t : Sys) (u : Int) (b : String) (r : bank_info)
    (job : Nat) (uid : Int)
    (hget : t.store.get u b = some r) (haux : t.aux job = some (u, b)) :
    step t (Op.inactive job (some uid)) =
      .ok ({ store := t.store.set u b { fairshare := r.fairshare, max_jobs := r.max_jobs,
                                        current_jobs := r.current_jobs - 1 },
             aux := t.aux },
           Event.released job (u, b)) := by
  simp [step, inactive_cb, haux, hget]

theorem run_admissions (u : Int) (b : String) (adm : List (Nat × Option String)) :
    ∀ (t : Sys) (r : bank_info), t.store.get u b = some r → r.fairshare ≠ 0 →
      (∀ a ∈ adm, resolves_to t.store u a.2 b) →
      (r.max_jobs ≤ 0 ∨ r.current_jobs + adm.length ≤ r.max_jobs) →
      ∃ t1, run t (adm.map fun x => Op.validate x.1 (some (u, x.2))) =
              .ok (t1, adm.map fun x => Event.admitted x.1 (u, b)) ∧
            t1.store.get u b = some { fairshare := r.fairshare, max_jobs := r.max_jobs,
                                      current_jobs := r.current_jobs + adm.length } ∧
            t1.store.users_def_bank = t.store.users_def_bank ∧
            (∀ a ∈ adm, t1.aux a.1 = some (u, b)) ∧
            (∀ j, t.aux j = some (u, b) → t1.aux j = some (u, b)) := by
  induction adm with
  | nil =>
    intro t r hget _ _ _
    refine ⟨t, rfl, ?_, rfl, ?_, fun _ h => h⟩
    · simpa using hget
    · intro a ha; simp at ha
  | cons a adm ih =>
    intro t r hget hf hres hq
    have hq1 : r.max_jobs ≤ 0 ∨ r.current_jobs < r.max_jobs := by
      rcases hq with h | h
      · exact Or.inl h
      · right; simp only [List.length_cons, Nat.cast_add, Nat.cast_one] at h; omega
    have hstep := step_validate_accept t u b r a.1 a.2 hget
      (hres a (List.mem_cons_self _ _)) hf hq1
    obtain ⟨t1, hrun, hg1, hd1, haux1, hkeep1⟩ :=
      ih { store := t.store.set u b { fairshare := r.fairshare, max_jobs := r.max_jobs,
                                      current_jobs := r.current_jobs + 1 },
           aux := Function.update t.aux a.1 (some (u, b)) }
        { fairshare := r.fairshare, max_jobs := r.max_jobs,
          current_jobs := r.current_jobs + 1 }
        (Store.get_set_same _ _ _ _) hf
        (fun x hx => by
          have := hres x (List.mem_cons_of_mem _ hx)
          simpa [resolves_to, Store.set] using this)
        (by
          rcases hq with h | h
          · exact Or.inl h
          · right; simp only [List.length_cons, Nat.cast_add, Nat.cast_one] at h
            show r.current_jobs + 1 + (adm.length : Int) ≤ r.max_jobs
            omega)
    refine ⟨t1, ?_, ?_, ?_, ?_, ?_⟩
    · simp only [List.map_cons, run, hstep, hrun]
    · rw [hg1]; simp only [List.length_cons, Nat.cast_add, Nat.cast_one]
      congr 2; ring
    · rw [hd1]; rfl
    · intro x hx
      rcases List.mem_cons.mp hx with rfl | hx
      · exact hkeep1 _ (by simp)
      · exact haux1 x hx
    · intro j hj
      apply hkeep1
      by_cases hja : j = a.1
      · subst hja; simp
      · simp [Function.update, hja, hj]

/-! ## C1: quota enforcement -/

theorem atoi_42 : atoi "42" = 42 := by decide

theorem atoi_2 : atoi "2" = 2 := by decide

theorem round_double_0_002 :
    round_double (1 / 500) = 1152921504606847 / 576460752303423488 := by
  rw [round_double_eval (1 / 500) (-9) 4611686018427388 (by norm_num) (by norm_num)
    (by norm_num [abs_of_pos]) (by norm_num [abs_of_pos]) (by norm_num [abs_lt])]
  norm_num

theorem atof_0_002 : atof "0.002" = 1152921504606847 / 576460752303423488 := by
  have h : atof "0.002" = read_double ['0', '.', '0', '0', '2'] := by
    simp [atof, isspace, reads_nan, starts_with_letters]
  rw [h, ← round_double_0_002]
  unfold read_double
  simp only [starts_with_letters]
  simp [read_decimal, read_digits, read_exponent]
  norm_num

theorem scenario_start_get :
    scenario_start.store.get 42 "b1" =
      some { fairshare := 1152921504606847 / 576460752303423488,
             max_jobs := 2, current_jobs := 0 } := by
  simp only [scenario_start, rec_update_cb, scenario_payload, atoi_42, atoi_2, atof_0_002]
  simp [Store.get, Store.set, Store.index, Store.empty]

theorem scenario_start_def_bank :
    scenario_start.store.users_def_bank 42 = some "b1" := by
  simp only [scenario_start, rec_update_cb, scenario_payload, atoi_42]
  simp

/-- C1. A record with fairshare different from 0, `max_jobs = N > 0` and no
current job admits `N` consecutive jobs naming it (bank supplied, or omitted
with the record's bank as default), which leaves `current_jobs = N`; one more
admission is rejected with the max-jobs reason and changes nothing; after the
cleanup of one of the admitted jobs the next admission succeeds. -/
theorem quota_enforcement (t : Sys) (u : Int) (b : String) (r : bank_info) (N : Nat)
    (hget : t.store.get u b = some r) (hf : r.fairshare ≠ 0) (hN : 0 < N)
    (hmax : r.max_jobs = N) (hcur : r.current_jobs = 0)
    (adm : List (Nat × Option String)) (hlen : adm.length = N)
    (hadm : ∀ x ∈ adm, resolves_to t.store u x.2 b)
    (c : Nat × Option String) (hc : resolves_to t.store u c.2 b)
    (a : Nat × Option String) (ha : a ∈ adm) (uid : Int)
    (d : Nat × Option String) (hd : resolves_to t.store u d.2 b) :
    ∃ t1 t3 t4 : Sys,
      run t (adm.map fun x => Op.validate x.1 (some (u, x.2))) =
        .ok (t1, adm.map fun x => Event.admitted x.1 (u, b)) ∧
      t1.current_jobs u b = some (N : Int) ∧
      step t1 (Op.validate c.1 (some (u, c.2))) =
        .ok (t1, Event.rejected c.1 "user has max number of jobs submitted") ∧
      step t1 (Op.inactive a.1 (some uid)) = .ok (t3, Event.released a.1 (u, b)) ∧
      t3.current_jobs u b = some ((N : Int) - 1) ∧
      step t3 (Op.validate d.1 (some (u, d.2))) = .ok (t4, Event.admitted d.1 (u, b)) ∧
      t4.current_jobs u b = some (N : Int) := by
  obtain ⟨t1, hrun, hg1, hd1, haux1, _⟩ :=
    run_admissions u b adm t r hget hf hadm (Or.inr (by rw [hcur, hmax, hlen]; simp))
  rw [hcur, hlen, zero_add] at hg1
  have hres1 : ∀ bank, resolves_to t.store u bank b → resolves_to t1.store u bank b := by
    intro bank h
    simpa [resolves_to, hd1] using h
  have hrej := step_validate_quota t1 u b _ c.1 c.2 hg1 (hres1 _ hc) hf
    ⟨by show r.max_jobs > 0; rw [hmax]; exact_mod_cast hN, by show r.max_jobs ≤ (N : Int); rw [hmax]⟩
  have hina := step_inactive_bound t1 u b _ a.1 uid hg1 (haux1 a ha)
  have hg3 := Store.get_set_same t1.store u b
    { fairshare := r.fairshare, max_jobs := r.max_jobs, current_jobs := (N : Int) - 1 }
  have hadm2 := step_validate_accept
    { store := t1.store.set u b
        { fairshare := r.fairshare, max_jobs := r.max_jobs, current_jobs := (N : Int) - 1 },
      aux := t1.aux } u b _ d.1 d.2 hg3
    (by simpa [resolves_to, Store.set] using hres1 _ hd) hf
    (Or.inr (by show (N : Int) - 1 < r.max_jobs; rw [hmax]; omega))
  refine ⟨t1, _, _, hrun, ?_, hrej, hina, ?_, hadm2, ?_⟩
  · simp [Sys.current_jobs, hg1]
  · simp [Sys.current_jobs, hg3]
  · simp [Sys.current_jobs, Store.get_set_same]

/-- C1, the scenario of the specification: user 42, bank b1, fairshare 0.002,
`max_jobs` 2. Job 1 (bank omitted, default b1) and job 2 are admitted, job 3 is
rejected, job 1 is cleaned up, job 3 is admitted. -/
theorem quota_enforcement_witness :
    ∃ t1 t3 t4 : Sys,
      run scenario_start
          [Op.validate 1 (some (42, none)), Op.validate 2 (some (42, some "b1"))] =
        .ok (t1, [Event.admitted 1 (42, "b1"), Event.admitted 2 (42, "b1")]) ∧
      t1.current_jobs 42 "b1" = some 2 ∧
      step t1 (Op.validate 3 (some (42, some "b1"))) =
        .ok (t1, Event.rejected 3 "user has max number of jobs submitted") ∧
      step t1 (Op.inactive 1 (some 42)) = .ok (t3, Event.released 1 (42, "b1")) ∧
      t3.current_jobs 42 "b1" = some 1 ∧
      step t3 (Op.validate 3 (some (42, some "b1"))) =
        .ok (t4, Event.admitted 3 (42, "b1")) ∧
      t4.current_jobs 42 "b1" = some 2 :=
  quota_enforcement scenario_start 42 "b1"
    { fairshare := 1152921504606847 / 576460752303423488, max_jobs := 2, current_jobs := 0 } 2
    scenario_start_get (by norm_num) (by decide) rfl rfl
    [(1, none), (2, some "b1")] rfl
    (by
      intro x hx
      simp only [List.mem_cons, List.mem_singleton, List.not_mem_nil, or_false] at hx
      rcases hx with rfl | rfl
      · exact Or.inr ⟨rfl, scenario_start_def_bank⟩
      · exact Or.inl rfl)
    (3, some "b1") (Or.inl rfl) (1, none) (by simp) 42 (3, some "b1") (Or.inl rfl)

/-! ## How each callback changes the store -/

theorem def_bank_index_users (s : Store) (u : Int) :
    (def_bank_index s u).1.users = s.users := by
  unfold def_bank_index
  cases s.users_def_bank u <;> rfl

theorem Store.get_congr (s1 s2 : Store) (h : s1.users = s2.users) (u : Int) (b : String) :
    s1.get u b = s2.get u b := by
  unfold Store.get
  rw [h]

/-- A bulk update keeps every existing record and its `current_jobs`. -/
theorem rec_update_cb_keeps (s : Store) (msg : Option Payload) (u : Int) (b : String)
    (r : bank_info) (h : s.get u b = some r) :
    ∃ r1, (rec_update_cb s msg).1.get u b = some r1 ∧ r1.current_jobs = r.current_jobs := by
  cases msg with
  | none => exact ⟨r, h, rfl⟩
  | some m =>
    have hstore : (rec_update_cb s (some m)).1.get u b =
        (s.set (atoi m.userid) m.bank
          { fairshare := atof m.fairshare, max_jobs := atoi m.max_jobs,
            current_jobs := (s.index (atoi m.userid) m.bank).current_jobs }).get u b := rfl
    rw [hstore]
    by_cases hk : u = atoi m.userid ∧ b = m.bank
    · obtain ⟨rfl, rfl⟩ := hk
      rw [Store.get_set_same]
      exact ⟨_, rfl, by simp [Store.index, h]⟩
    · rw [Store.get_set_of_ne _ _ _ _ _ _ hk]
      exact ⟨r, h, rfl⟩

/-- The two ways `validate_cb_found` ends. -/
theorem validate_cb_found_cases (s : Store) (aux : Option Ref) (u : Int) (b : String)
    (r : bank_info) :
    (∃ msg, validate_cb_found s aux u b r = flux_jobtap_reject_job s aux msg) ∨
    (r.fairshare ≠ 0 ∧ (r.max_jobs ≤ 0 ∨ r.current_jobs < r.max_jobs) ∧
      validate_cb_found s aux u b r =
        { store := s.set u b { fairshare := r.fairshare, max_jobs := r.max_jobs,
                               current_jobs := r.current_jobs + 1 },
          aux := some (u, b), ret := 0, errmsg := none, raised := none,
          priority := none }) := by
  by_cases hf : r.fairshare = 0
  · left; exact ⟨"user fairshare value is 0", by simp [validate_cb_found, hf]⟩
  · by_cases hq : r.max_jobs > 0 ∧ r.current_jobs ≥ r.max_jobs
    · left
      exact ⟨"user has max number of jobs submitted", by simp [validate_cb_found, hf, hq]⟩
    · right
      have hq1 : r.max_jobs ≤ 0 ∨ r.current_jobs < r.max_jobs := by
        by_cases h0 : r.max_jobs ≤ 0
        · exact Or.inl h0
        · right
          by_contra hlt
          exact hq ⟨by omega, by omega⟩
      exact ⟨hf, hq1, validate_cb_found_accept s aux u b r hf hq1⟩

/-- The two ways `validate_cb` ends: a rejection, which leaves `users` and the
aux slot as they were, or the admission to an existing record. -/
theorem validate_cb_cases (s : Store) (aux : Option Ref) (args : Option (Int × Option String)) :
    (∃ msg, (validate_cb s aux args).errmsg = some msg ∧
        (validate_cb s aux args).ret = -1 ∧
        (validate_cb s aux args).aux = aux ∧
        (validate_cb s aux args).store.users = s.users) ∨
    (∃ u b r, s.get u b = some r ∧ r.fairshare ≠ 0 ∧
        (r.max_jobs ≤ 0 ∨ r.current_jobs < r.max_jobs) ∧
        (validate_cb s aux args).errmsg = none ∧
        (validate_cb s aux args).ret = 0 ∧
        (validate_cb s aux args).aux = some (u, b) ∧
        (validate_cb s aux args).store.users =
          (s.set u b { fairshare := r.fairshare, max_jobs := r.max_jobs,
                       current_jobs := r.current_jobs + 1 }).users) := by
  cases args with
  | none => left; exact ⟨_, rfl, rfl, rfl, rfl⟩
  | some a =>
    obtain ⟨u, bank⟩ := a
    cases hu : s.users u with
    | none =>
      left
      exact ⟨"user not found in flux-accounting DB",
        by simp [validate_cb, hu, flux_jobtap_reject_job]⟩
    | some banks =>
      cases bank with
      | some bk =>
        cases hb : banks bk with
        | none =>
          left
          exact ⟨"user does not belong to specified bank",
            by simp [validate_cb, hu, hb, flux_jobtap_reject_job]⟩
        | some r =>
          have hv : validate_cb s aux (some (u, some bk)) = validate_cb_found s aux u bk r := by
            simp [validate_cb, hu, hb]
          rw [hv]
          rcases validate_cb_found_cases s aux u bk r with ⟨msg, h⟩ | ⟨hf, hq, h⟩
          · left; exact ⟨msg, by simp [h, flux_jobtap_reject_job]⟩
          · right
            refine ⟨u, bk, r, by simp [Store.get, hu, hb], hf, hq, ?_⟩
            simp [h]
      | none =>
        cases hb : banks (def_bank_index s u).2 with
        | none =>
          left
          exact ⟨"user/default bank entry does not exist",
            by simp [validate_cb, hu, hb, flux_jobtap_reject_job, def_bank_index_users]⟩
        | some r =>
          have hv : validate_cb s aux (some (u, none)) =
              validate_cb_found (def_bank_index s u).1 aux u (def_bank_index s u).2 r := by
            simp [validate_cb, hu, hb]
          rw [hv]
          rcases validate_cb_found_cases (def_bank_index s u).1 aux u (def_bank_index s u).2 r
            with ⟨msg, h⟩ | ⟨hf, hq, h⟩
          · left; exact ⟨msg, by simp [h, flux_jobtap_reject_job, def_bank_index_users]⟩
          · right
            refine ⟨u, (def_bank_index s u).2, r, by simp [Store.get, hu, hb], hf, hq, ?_⟩
            simp [h, Store.set, def_bank_index_users]

theorem Store.get_set_keeps (s : Store) (u : Int) (b : String) (x : bank_info)
    (u1 : Int) (b1 : String) (r : bank_info) (h : s.get u1 b1 = some r) :
    ∃ r1, (s.set u b x).get u1 b1 = some r1 := by
  by_cases hk : u1 = u ∧ b1 = b
  · obtain ⟨rfl, rfl⟩ := hk
    exact ⟨x, Store.get_set_same _ _ _ _⟩
  · exact ⟨r, by rw [Store.get_set_of_ne _ _ _ _ _ _ hk]; exact h⟩

/-- The priority computation returns whenever the aux slot, if bound, points
to a node of `users`. -/
theorem priority_calculation_returns (s : Store) (aux : Option Ref) (userid : Int)
    (bank : Option String) (urgency : Int)
    (h : ∀ ref, aux = some ref → ∃ r, s.get ref.1 ref.2 = some r) :
    ∃ p, priority_calculation s aux userid bank urgency = .ok p := by
  by_cases h1 : urgency = FLUX_JOB_URGENCY_HOLD
  · simp only [priority_calculation, if_pos h1]
    exact ⟨_, rfl⟩
  · by_cases h2 : urgency = FLUX_JOB_URGENCY_EXPEDITE
    · simp only [priority_calculation, if_neg h1, if_pos h2]
      exact ⟨_, rfl⟩
    · cases aux with
      | none =>
        simp only [priority_calculation, if_neg h1, if_neg h2]
        exact ⟨_, rfl⟩
      | some ref =>
        obtain ⟨r, hr⟩ := h ref rfl
        simp only [priority_calculation, if_neg h1, if_neg h2, hr]
        exact ⟨_, rfl⟩

/-- The callback `priority_cb` returns, with the store and the aux slot as they
were, whenever the aux slot, if bound, points to a node of `users`. -/
theorem priority_cb_returns (s : Store) (aux : Option Ref)
    (args : Option (Int × Int × Option String))
    (h : ∀ ref, aux = some ref → ∃ r, s.get ref.1 ref.2 = some r) :
    ∃ o, priority_cb s aux args = .ok o ∧ o.store = s ∧ o.aux = aux := by
  cases args with
  | none => exact ⟨_, rfl, rfl, rfl⟩
  | some a =>
    obtain ⟨urgency, userid, bank⟩ := a
    obtain ⟨p, hp⟩ := priority_calculation_returns s aux userid bank urgency h
    exact ⟨{ store := s, aux := aux, ret := 0, errmsg := none, raised := p.2,
             priority := some p.1 }, by simp only [priority_cb, hp], rfl, rfl⟩

/-- One invocation from a valid state, `inactive_cb` being run on a bound job
only: the invocation returns, and it is a step that keeps every record and its
`current_jobs`, or the admission of the job to an existing record, or the
cleanup of the job on the record it is bound to. -/
theorem step_spec (t : Sys) (op : Op) (hvalid : t.valid)
    (hina : ∀ job args, op = Op.inactive job args → ∃ ref, t.aux job = some ref) :
    ∃ t1 e, step t op = .ok (t1, e) ∧
      ((t1.aux = t.aux ∧ e.neutral ∧
          ∀ u b r, t.store.get u b = some r →
            ∃ r1, t1.store.get u b = some r1 ∧ r1.current_jobs = r.current_jobs) ∨
       (∃ job ref rr, e = Event.admitted job ref ∧
          t1.aux = Function.update t.aux job (some ref) ∧
          t.store.get ref.1 ref.2 = some rr ∧
          t1.store.users = (t.store.set ref.1 ref.2
            { fairshare := rr.fairshare, max_jobs := rr.max_jobs,
              current_jobs := rr.current_jobs + 1 }).users) ∨
       (∃ job args ref rr, op = Op.inactive job args ∧ e = Event.released job ref ∧
          t.aux job = some ref ∧ t1.aux = t.aux ∧
          t.store.get ref.1 ref.2 = some rr ∧
          t1.store.users = (t.store.set ref.1 ref.2
            { fairshare := rr.fairshare, max_jobs := rr.max_jobs,
              current_jobs := rr.current_jobs - 1 }).users)) := by
  cases op with
  | rec_update msg =>
    refine ⟨_, _, rfl, Or.inl ⟨rfl, ⟨fun _ => rfl, fun _ => rfl, fun _ => rfl⟩, ?_⟩⟩
    intro u b r h
    exact rec_update_cb_keeps t.store msg u b r h
  | validate job args =>
    refine ⟨_, _, rfl, ?_⟩
    rcases validate_cb_cases t.store (t.aux job) args with
      ⟨msg, he, _, ha, hu⟩ | ⟨u, b, r, hget, _, _, he, _, ha, hu⟩
    · left
      refine ⟨?_, ?_, ?_⟩
      · show Function.update t.aux job (validate_cb t.store (t.aux job) args).aux = t.aux
        rw [ha]; exact Function.update_eq_self _ _
      · simp only [validate_event, he]
        exact ⟨fun _ => rfl, fun _ => rfl, fun _ => rfl⟩
      · intro u b r h
        refine ⟨r, ?_, rfl⟩
        show (validate_cb t.store (t.aux job) args).store.get u b = some r
        rw [Store.get_congr _ _ hu]; exact h
    · right; left
      refine ⟨job, (u, b), r, ?_, ?_, hget, hu⟩
      · simp only [validate_event, he, ha]
      · show Function.update t.aux job (validate_cb t.store (t.aux job) args).aux = _
        rw [ha]
  | priority job args =>
    have hok := priority_cb_returns t.store (t.aux job) args (hvalid job)
    obtain ⟨o, ho, hs, ha⟩ := hok
    refine ⟨_, _, by simp only [step, ho]; rfl, Or.inl ⟨?_, ?_, ?_⟩⟩
    · show Function.update t.aux job o.aux = t.aux
      rw [ha]; exact Function.update_eq_self _ _
    · cases o.priority <;> exact ⟨fun _ => rfl, fun _ => rfl, fun _ => rfl⟩
    · intro u b r h
      exact ⟨r, by show o.store.get u b = some r; rw [hs]; exact h, rfl⟩
  | inactive job args =>
    obtain ⟨ref, haux⟩ := hina job args rfl
    obtain ⟨rr, hrr⟩ := hvalid job ref haux
    cases args with
    | none =>
      refine ⟨_, _, by simp only [step, inactive_cb]; rfl, Or.inl ⟨?_, ?_, ?_⟩⟩
      · show Function.update t.aux job (t.aux job) = t.aux
        exact Function.update_eq_self _ _
      · exact ⟨fun _ => rfl, fun _ => rfl, fun _ => rfl⟩
      · intro u b r h
        exact ⟨r, h, rfl⟩
    | some uid =>
      refine ⟨_, _, by simp only [step, inactive_cb, haux, hrr]; rfl, Or.inr (Or.inr ?_)⟩
      refine ⟨job, some uid, ref, rr, rfl, rfl, haux, ?_, hrr, rfl⟩
      show Function.update t.aux job (some ref) = t.aux
      rw [← haux]; exact Function.update_eq_self _ _

/-! ## Counting admissions, cleanups and bound jobs -/

theorem admissions_cons (b : Ref) (e : Event) (es : List Event) :
    admissions b (e :: es) = admissions b [e] + admissions b es := by
  simp only [admissions, List.countP_cons, List.countP_nil]
  omega

theorem cleanups_cons (b : Ref) (e : Event) (es : List Event) :
    cleanups b (e :: es) = cleanups b [e] + cleanups b es := by
  simp only [cleanups, List.countP_cons, List.countP_nil]
  omega

theorem admissions_admitted (b : Ref) (job : Nat) (ref : Ref) :
    admissions b [Event.admitted job ref] = if ref = b then 1 else 0 := by
  simp [admissions, List.countP_cons]

theorem cleanups_released (b : Ref) (job : Nat) (ref : Ref) :
    cleanups b [Event.released job ref] = if ref = b then 1 else 0 := by
  simp [cleanups, List.countP_cons]

theorem bound_jobs_erase (aux : Nat → Option Ref) (b : Ref) (job : Nat) (live : List Nat)
    (hm : job ∈ live) :
    bound_jobs aux b live =
      bound_jobs aux b (live.erase job) + (if aux job = some b then 1 else 0) := by
  unfold bound_jobs
  rw [(List.perm_cons_erase hm).countP_eq, List.countP_cons]
  simp

theorem bound_jobs_insert (aux : Nat → Option Ref) (b ref : Ref) (job : Nat)
    (live : List Nat) (hnd : live.Nodup) :
    bound_jobs (Function.update aux job (some ref)) b (live.insert job) ≤
      bound_jobs aux b live + (if ref = b then 1 else 0) := by
  have hrest : ∀ l : List Nat, job ∉ l →
      bound_jobs (Function.update aux job (some ref)) b l = bound_jobs aux b l := by
    intro l hl
    unfold bound_jobs
    apply List.countP_congr
    intro x hx
    have hne : x ≠ job := fun h => hl (h ▸ hx)
    simp [Function.update, hne]
  by_cases hm : job ∈ live
  · rw [List.insert_of_mem hm, bound_jobs_erase _ b job live hm,
      bound_jobs_erase aux b job live hm, hrest _ hnd.not_mem_erase]
    simp only [Function.update_same, Option.some.injEq]
    split_ifs <;> omega
  · rw [List.insert_of_not_mem hm]
    have hc : bound_jobs (Function.update aux job (some ref)) b (job :: live) =
        bound_jobs (Function.update aux job (some ref)) b live +
          (if ref = b then 1 else 0) := by
      unfold bound_jobs
      rw [List.countP_cons]
      simp
    rw [hc, hrest live hm]

/-! ## C2: conservation of `current_jobs` -/

/-- One invocation that respects the discipline on cleanups returns, keeps the
tracking of bound jobs, and changes `current_jobs` of the record under
`(u, b)` by the admissions minus the cleanups it reports for that record. -/
theorem step_accounting (t : Sys) (live : List Nat) (op : Op) (u : Int) (b : String)
    (r : bank_info) (hinv : t.tracks live) (hd : discipline live op = true)
    (hget : t.store.get u b = some r) :
    ∃ t1 e r1, step t op = .ok (t1, e) ∧ t1.tracks (next_live live e) ∧
      t1.store.get u b = some r1 ∧
      r1.current_jobs + (cleanups (u, b) [e] : Int) =
        r.current_jobs + (admissions (u, b) [e] : Int) ∧
      bound_jobs t1.aux (u, b) (next_live live e) + cleanups (u, b) [e] ≤
        bound_jobs t.aux (u, b) live + admissions (u, b) [e] := by
  obtain ⟨hvalid, hnd, hbound⟩ := hinv
  have hina : ∀ job args, op = Op.inactive job args → ∃ ref, t.aux job = some ref := by
    intro job args hop
    subst hop
    exact hbound job (by simpa [discipline] using hd)
  obtain ⟨t1, e, hstep, hcase⟩ := step_spec t op hvalid hina
  rcases hcase with ⟨haux, ⟨hadm, hcl, hlive⟩, hkeep⟩ |
    ⟨job, ref, rr, he, haux, hrr, husers⟩ |
    ⟨job, args, ref, rr, hop, he, hjob, haux, hrr, husers⟩
  · obtain ⟨r1, hr1, hcur⟩ := hkeep u b r hget
    refine ⟨t1, e, r1, hstep, ⟨?_, ?_, ?_⟩, hr1, ?_, ?_⟩
    · intro j ref hj
      rw [haux] at hj
      obtain ⟨x, hx⟩ := hvalid j ref hj
      obtain ⟨x1, hx1, _⟩ := hkeep _ _ x hx
      exact ⟨x1, hx1⟩
    · rw [hlive]; exact hnd
    · rw [hlive, haux]; exact hbound
    · rw [hadm, hcl, hcur]
    · rw [hadm, hcl, hlive, haux]
  · subst he
    have hget1 : ∀ u1 b1, t1.store.get u1 b1 =
        (t.store.set ref.1 ref.2
          { fairshare := rr.fairshare, max_jobs := rr.max_jobs,
            current_jobs := rr.current_jobs + 1 }).get u1 b1 :=
      fun u1 b1 => Store.get_congr _ _ husers u1 b1
    have htarget : ∃ r1, t1.store.get u b = some r1 ∧
        r1.current_jobs = r.current_jobs + (if ref = (u, b) then 1 else 0) := by
      by_cases hk : ref = (u, b)
      · subst hk
        rw [hget] at hrr
        cases hrr
        exact ⟨_, by rw [hget1]; exact Store.get_set_same _ _ _ _, by simp⟩
      · have hk1 : ¬ (u = ref.1 ∧ b = ref.2) := fun h => hk (Prod.ext h.1.symm h.2.symm)
        exact ⟨r, by rw [hget1, Store.get_set_of_ne _ _ _ _ _ _ hk1]; exact hget,
          by simp [hk]⟩
    obtain ⟨r1, hr1, hcur⟩ := htarget
    refine ⟨t1, _, r1, hstep, ⟨?_, ?_, ?_⟩, hr1, ?_, ?_⟩
    · intro j ref1 hj
      rw [haux] at hj
      by_cases hjj : j = job
      · subst hjj
        simp only [Function.update_same, Option.some.injEq] at hj
        subst hj
        exact ⟨_, by rw [hget1]; exact Store.get_set_same _ _ _ _⟩
      · simp only [Function.update, hjj, dite_false] at hj
        obtain ⟨x, hx⟩ := hvalid j ref1 hj
        obtain ⟨x1, hx1⟩ := Store.get_set_keeps t.store ref.1 ref.2
          { fairshare := rr.fairshare, max_jobs := rr.max_jobs,
            current_jobs := rr.current_jobs + 1 } _ _ x hx
        exact ⟨x1, by rw [hget1]; exact hx1⟩
    · exact hnd.insert
    · intro j hj
      rw [haux]
      by_cases hjj : j = job
      · subst hjj; exact ⟨ref, by simp⟩
      · have hjl : j ∈ live := by
          rcases List.mem_insert_iff.mp hj with h | h
          · exact absurd h hjj
          · exact h
        obtain ⟨x, hx⟩ := hbound j hjl
        exact ⟨x, by simp [Function.update, hjj, hx]⟩
    · rw [hcur, admissions_admitted]
      simp [cleanups]
    · rw [haux, admissions_admitted]
      have := bound_jobs_insert t.aux (u, b) ref job live hnd
      simpa [cleanups, next_live] using this
  · subst he
    subst hop
    have hmem : job ∈ live := by simpa [discipline] using hd
    have hget1 : ∀ u1 b1, t1.store.get u1 b1 =
        (t.store.set ref.1 ref.2
          { fairshare := rr.fairshare, max_jobs := rr.max_jobs,
            current_jobs := rr.current_jobs - 1 }).get u1 b1 :=
      fun u1 b1 => Store.get_congr _ _ husers u1 b1
    have htarget : ∃ r1, t1.store.get u b = some r1 ∧
        r1.current_jobs = r.current_jobs - (if ref = (u, b) then 1 else 0) := by
      by_cases hk : ref = (u, b)
      · subst hk
        rw [hget] at hrr
        cases hrr
        exact ⟨_, by rw [hget1]; exact Store.get_set_same _ _ _ _, by simp⟩
      · have hk1 : ¬ (u = ref.1 ∧ b = ref.2) := fun h => hk (Prod.ext h.1.symm h.2.symm)
        exact ⟨r, by rw [hget1, Store.get_set_of_ne _ _ _ _ _ _ hk1]; exact hget,
          by simp [hk]⟩
    obtain ⟨r1, hr1, hcur⟩ := htarget
    refine ⟨t1, _, r1, hstep, ⟨?_, ?_, ?_⟩, hr1, ?_, ?_⟩
    · intro j ref1 hj
      rw [haux] at hj
      obtain ⟨x, hx⟩ := hvalid j ref1 hj
      obtain ⟨x1, hx1⟩ := Store.get_set_keeps t.store ref.1 ref.2
        { fairshare := rr.fairshare, max_jobs := rr.max_jobs,
          current_jobs := rr.current_jobs - 1 } _ _ x hx
      exact ⟨x1, by rw [hget1]; exact hx1⟩
    · exact hnd.erase job
    · intro j hj
      rw [haux]
      exact hbound j (List.mem_of_mem_erase hj)
    · rw [hcur, cleanups_released]
      simp [admissions]
    · rw [haux, cleanups_released, bound_jobs_erase t.aux (u, b) job live hmem, hjob]
      simp [admissions, next_live]

theorem run_accounting (u : Int) (b : String) (ops : List Op) :
    ∀ (t : Sys) (live : List Nat) (r : bank_info), t.tracks live →
      lifecycle t live ops = true → t.store.get u b = some r →
      ∃ t1 es r1 live1, run t ops = .ok (t1, es) ∧ t1.tracks live1 ∧
        t1.store.get u b = some r1 ∧
        r1.current_jobs + (cleanups (u, b) es : Int) =
          r.current_jobs + (admissions (u, b) es : Int) ∧
        bound_jobs t1.aux (u, b) live1 + cleanups (u, b) es ≤
          bound_jobs t.aux (u, b) live + admissions (u, b) es := by
  induction ops with
  | nil =>
    intro t live r hinv _ hget
    exact ⟨t, [], r, live, rfl, hinv, hget, by simp [cleanups, admissions],
      by simp [cleanups, admissions]⟩
  | cons op ops ih =>
    intro t live r hinv hlife hget
    simp only [lifecycle, Bool.and_eq_true] at hlife
    obtain ⟨hd, hrest⟩ := hlife
    obtain ⟨t1, e, r1, hstep, hinv1, hget1, hcur1, hcnt1⟩ :=
      step_accounting t live op u b r hinv hd hget
    rw [hstep] at hrest
    obtain ⟨t2, es, r2, live2, hrun, hinv2, hget2, hcur2, hcnt2⟩ :=
      ih t1 (next_live live e) r1 hinv1 hrest hget1
    refine ⟨t2, e :: es, r2, live2, by simp only [run, hstep, hrun], hinv2, hget2, ?_, ?_⟩
    · rw [admissions_cons, cleanups_cons]
      push_cast
      linarith
    · rw [admissions_cons, cleanups_cons]
      omega

theorem lifecycle_take (ops : List Op) :
    ∀ (t : Sys) (live : List Nat) (n : Nat), lifecycle t live ops = true →
      lifecycle t live (ops.take n) = true := by
  induction ops with
  | nil => intro t live n h; simpa using h
  | cons op ops ih =>
    intro t live n h
    cases n with
    | zero => rfl
    | succ n =>
      simp only [lifecycle, Bool.and_eq_true] at h
      simp only [List.take_succ_cons, lifecycle, Bool.and_eq_true]
      refine ⟨h.1, ?_⟩
      cases hs : step t op with
      | error f => rfl
      | ok p =>
        have h2 := h.2
        rw [hs] at h2
        exact ih p.1 (next_live live p.2) n h2

/-- C2. From a valid state in which the record under `(u, b)` holds a
non-negative `current_jobs`, along any sequence of bulk updates, admissions,
priority computations and cleanups, on any records, in which every cleanup is
that of a job admitted earlier in the sequence and not cleaned up since: every
prefix of the sequence runs to an end, after it the record's `current_jobs`
is the initial value plus the admissions bound to the record minus the
cleanups of jobs bound to it, the cleanups do not outnumber the admissions,
and `current_jobs` is not negative. -/
theorem current_jobs_conserved (t : Sys) (ops : List Op) (u : Int) (b : String)
    (r0 : bank_info) (hget : t.store.get u b = some r0) (hnn : 0 ≤ r0.current_jobs)
    (hvalid : t.valid) (hlife : lifecycle t [] ops = true) (n : Nat) :
    ∃ tn es rn, run t (ops.take n) = .ok (tn, es) ∧ tn.store.get u b = some rn ∧
      rn.current_jobs =
        r0.current_jobs + (admissions (u, b) es : Int) - (cleanups (u, b) es : Int) ∧
      cleanups (u, b) es ≤ admissions (u, b) es ∧ 0 ≤ rn.current_jobs := by
  have hinv : t.tracks [] := ⟨hvalid, List.nodup_nil, fun j hj => by simp at hj⟩
  obtain ⟨tn, es, rn, live, hrun, _, hgetn, hcur, hcnt⟩ :=
    run_accounting u b (ops.take n) t [] r0 hinv (lifecycle_take ops t [] n hlife) hget
  have hle : cleanups (u, b) es ≤ admissions (u, b) es := by
    have h0 : bound_jobs t.aux (u, b) [] = 0 := rfl
    omega
  refine ⟨tn, es, rn, hrun, hgetn, by linarith, hle, ?_⟩
  have : (cleanups (u, b) es : Int) ≤ (admissions (u, b) es : Int) := by exact_mod_cast hle
  linarith

theorem lifecycle_cons_true (t : Sys) (live : List Nat) (op : Op) (ops : List Op)
    (t1 : Sys) (e : Event) (hd : discipline live op = true)
    (hstep : step t op = .ok (t1, e)) (hrest : lifecycle t1 (next_live live e) ops = true) :
    lifecycle t live (op :: ops) = true := by
  simp only [lifecycle, hd, hstep, hrest, Bool.and_self]

theorem scenario_start_valid : scenario_start.valid := by
  intro j ref h
  simp [scenario_start] at h

theorem scenario_lifecycle : lifecycle scenario_start [] scenario_ops = true := by
  have h1 := step_validate_accept scenario_start 42 "b1"
    { fairshare := 1152921504606847 / 576460752303423488,
      max_jobs := 2, current_jobs := 0 } 1 none scenario_start_get
    (Or.inr ⟨rfl, scenario_start_def_bank⟩) (by norm_num) (Or.inr (by decide))
  have h2 := step_validate_accept
    { store := scenario_start.store.set 42 "b1"
        { fairshare := 1152921504606847 / 576460752303423488,
          max_jobs := 2, current_jobs := 0 + 1 },
      aux := Function.update scenario_start.aux 1 (some (42, "b1")) } 42 "b1"
    { fairshare := 1152921504606847 / 576460752303423488,
      max_jobs := 2, current_jobs := 0 + 1 } 2 (some "b1")
    (Store.get_set_same _ _ _ _) (Or.inl rfl) (by norm_num) (Or.inr (by decide))
  have h3 := step_inactive_bound
    { store := (scenario_start.store.set 42 "b1"
          { fairshare := 1152921504606847 / 576460752303423488,
            max_jobs := 2, current_jobs := 0 + 1 }).set 42 "b1"
        { fairshare := 1152921504606847 / 576460752303423488,
          max_jobs := 2, current_jobs := 0 + 1 + 1 },
      aux := Function.update (Function.update scenario_start.aux 1 (some (42, "b1"))) 2
        (some (42, "b1")) } 42 "b1"
    { fairshare := 1152921504606847 / 576460752303423488,
      max_jobs := 2, current_jobs := 0 + 1 + 1 } 1 42
    (Store.get_set_same _ _ _ _) (by simp [Function.update])
  refine lifecycle_cons_true _ _ _ _ _ _ rfl h1 ?_
  refine lifecycle_cons_true _ _ _ _ _ _ rfl h2 ?_
  refine lifecycle_cons_true _ _ _ _ _ _ (by decide) h3 ?_
  exact lifecycle_cons_true _ _ _ _ _ _ rfl rfl rfl

/-- C2 on the run `scenario_ops` of the scenario, at its full length. -/
theorem current_jobs_conserved_witness :
    ∃ tn es rn, run scenario_start (scenario_ops.take 4) = .ok (tn, es) ∧
      tn.store.get 42 "b1" = some rn ∧
      rn.current_jobs =
        0 + (admissions (42, "b1") es : Int) - (cleanups (42, "b1") es : Int) ∧
      cleanups (42, "b1") es ≤ admissions (42, "b1") es ∧ 0 ≤ rn.current_jobs :=
  current_jobs_conserved scenario_start scenario_ops 42 "b1"
    { fairshare := 1152921504606847 / 576460752303423488, max_jobs := 2, current_jobs := 0 }
    scenario_start_get (le_refl 0) scenario_start_valid scenario_lifecycle 4

/-! ## C3: rejection leaves the state as it was -/

theorem def_bank_index_of_some (s : Store) (u : Int) (d : String)
    (h : s.users_def_bank u = some d) : def_bank_index s u = (s, d) := by
  simp only [def_bank_index, h]

theorem validate_cb_found_rejected (s : Store) (aux : Option Ref) (u : Int) (b : String)
    (r : bank_info) (hrej : (validate_cb_found s aux u b r).errmsg ≠ none) :
    (validate_cb_found s aux u b r).store = s ∧ (validate_cb_found s aux u b r).aux = aux ∧
      (validate_cb_found s aux u b r).ret = -1 := by
  rcases validate_cb_found_cases s aux u b r with ⟨msg, h⟩ | ⟨_, _, h⟩
  · rw [h]; exact ⟨rfl, rfl, rfl⟩
  · rw [h] at hrej; exact absurd rfl hrej

/-- The empty store is consistent. -/
theorem Store.consistent_empty : Store.empty.consistent := by
  intro u h
  exact absurd rfl h

/-- A bulk update keeps the store consistent. -/
theorem rec_update_cb_consistent (s : Store) (msg : Option Payload) (h : s.consistent) :
    (rec_update_cb s msg).1.consistent := by
  cases msg with
  | none => exact h
  | some m =>
    intro u hu
    by_cases huu : u = atoi m.userid
    · subst huu
      simp [rec_update_cb]
    · have h1 : (rec_update_cb s (some m)).1.users u = s.users u := by
        simp [rec_update_cb, Store.set, Function.update, huu]
      have h2 : (rec_update_cb s (some m)).1.users_def_bank u = s.users_def_bank u := by
        simp [rec_update_cb, Store.set, Function.update, huu]
      rw [h2]
      rw [h1] at hu
      exact h u hu

theorem validate_cb_found_users_def_bank (s : Store) (aux : Option Ref) (u : Int)
    (b : String) (r : bank_info) :
    (validate_cb_found s aux u b r).store.users_def_bank = s.users_def_bank := by
  rcases validate_cb_found_cases s aux u b r with ⟨msg, h⟩ | ⟨_, _, h⟩ <;> rw [h] <;> rfl

/-- In a consistent store `validate_cb` leaves `users_def_bank` as it was. -/
theorem validate_cb_users_def_bank (s : Store) (aux : Option Ref)
    (args : Option (Int × Option String)) (hcons : s.consistent) :
    (validate_cb s aux args).store.users_def_bank = s.users_def_bank := by
  cases args with
  | none => rfl
  | some a =>
    obtain ⟨u, bank⟩ := a
    cases hu : s.users u with
    | none => simp [validate_cb, hu, flux_jobtap_reject_job]
    | some banks =>
      cases bank with
      | some bk =>
        cases hb : banks bk with
        | none => simp [validate_cb, hu, hb, flux_jobtap_reject_job]
        | some r =>
          have hv : validate_cb s aux (some (u, some bk)) = validate_cb_found s aux u bk r := by
            simp [validate_cb, hu, hb]
          rw [hv]
          exact validate_cb_found_users_def_bank s aux u bk r
      | none =>
        have hd : s.users_def_bank u ≠ none := hcons u (by rw [hu]; simp)
        obtain ⟨d, hd⟩ := Option.ne_none_iff_exists'.mp hd
        have hidx := def_bank_index_of_some s u d hd
        cases hb : banks d with
        | none => simp [validate_cb, hu, hidx, hb, flux_jobtap_reject_job]
        | some r =>
          have hv : validate_cb s aux (some (u, none)) = validate_cb_found s aux u d r := by
            simp [validate_cb, hu, hidx, hb]
          rw [hv]
          exact validate_cb_found_users_def_bank s aux u d r

theorem Store.set_users_ne_none (s : Store) (u : Int) (b : String) (x r : bank_info)
    (hex : s.get u b = some r) (v : Int) (h : (s.set u b x).users v ≠ none) :
    s.users v ≠ none := by
  by_cases hv : v = u
  · subst hv
    intro hn
    simp [Store.get, hn] at hex
  · simpa [Store.set, Function.update, hv] using h

/-- One invocation keeps the store consistent. -/
theorem step_consistent (t : Sys) (op : Op) (t1 : Sys) (e : Event)
    (h : t.store.consistent) (hstep : step t op = .ok (t1, e)) : t1.store.consistent := by
  cases op with
  | rec_update msg =>
    simp only [step, Except.ok.injEq, Prod.mk.injEq] at hstep
    rw [← hstep.1]
    exact rec_update_cb_consistent t.store msg h
  | validate job args =>
    simp only [step, Except.ok.injEq, Prod.mk.injEq] at hstep
    rw [← hstep.1]
    intro v hv
    show (validate_cb t.store (t.aux job) args).store.users_def_bank v ≠ none
    rw [validate_cb_users_def_bank t.store (t.aux job) args h]
    apply h
    have hv : (validate_cb t.store (t.aux job) args).store.users v ≠ none := hv
    rcases validate_cb_cases t.store (t.aux job) args with
      ⟨_, _, _, _, hu⟩ | ⟨u, b, r, hget, _, _, _, _, _, hu⟩
    · rw [hu] at hv; exact hv
    · rw [hu] at hv
      exact Store.set_users_ne_none t.store u b _ r hget v hv
  | priority job args =>
    have hs : t1.store = t.store := by
      cases args with
      | none =>
        simp only [step, priority_cb, Except.ok.injEq, Prod.mk.injEq] at hstep
        rw [← hstep.1]
      | some a =>
        obtain ⟨urgency, userid, bank⟩ := a
        simp only [step, priority_cb] at hstep
        cases hp : priority_calculation t.store (t.aux job) userid bank urgency with
        | error f => simp [hp] at hstep
        | ok p =>
          simp only [hp, Except.ok.injEq, Prod.mk.injEq] at hstep
          rw [← hstep.1]
    rw [hs]; exact h
  | inactive job args =>
    cases args with
    | none =>
      simp only [step, inactive_cb, Except.ok.injEq, Prod.mk.injEq] at hstep
      rw [← hstep.1]; exact h
    | some uid =>
      cases haux : t.aux job with
      | none => simp [step, inactive_cb, haux] at hstep
      | some ref =>
        cases hget : t.store.get ref.1 ref.2 with
        | none => simp [step, inactive_cb, haux, hget] at hstep
        | some r =>
          simp only [step, inactive_cb, haux, hget, Except.ok.injEq, Prod.mk.injEq] at hstep
          rw [← hstep.1]
          intro v hv
          exact h v (Store.set_users_ne_none t.store ref.1 ref.2 _ r hget v hv)

/-- Every state reached from a consistent store is consistent. -/
theorem run_consistent (ops : List Op) :
    ∀ (t t1 : Sys) (es : List Event), t.store.consistent → run t ops = .ok (t1, es) →
      t1.store.consistent := by
  induction ops with
  | nil =>
    intro t t1 es h hrun
    simp only [run, Except.ok.injEq, Prod.mk.injEq] at hrun
    rw [← hrun.1]; exact h
  | cons op ops ih =>
    intro t t1 es h hrun
    simp only [run] at hrun
    cases hs : step t op with
    | error f => simp [hs] at hrun
    | ok p =>
      obtain ⟨t2, e⟩ := p
      simp only [hs] at hrun
      cases hr : run t2 ops with
      | error f => simp [hr] at hrun
      | ok q =>
        obtain ⟨t3, es3⟩ := q
        simp only [hr, Except.ok.injEq, Prod.mk.injEq] at hrun
        rw [← hrun.1]
        exact ih t2 t3 es3 (step_consistent t op t2 e h hs) hr

/-- Every state reached from the empty store has, for every user of `users`,
a default bank entry. -/
theorem reachable_consistent (ops : List Op) (t : Sys) (es : List Event)
    (hrun : run { store := Store.empty, aux := fun _ => none } ops = .ok (t, es)) :
    t.store.consistent :=
  run_consistent ops _ t es Store.consistent_empty hrun

/-- A rejection by `validate_cb` leaves both maps and the aux slot of the job as
they were and returns -1, when the user of a submission without bank who has
an entry in `users` has a default bank entry. -/
theorem validate_cb_rejected (s : Store) (aux : Option Ref)
    (args : Option (Int × Option String))
    (hdef : ∀ u, args = some (u, none) → s.users u ≠ none → s.users_def_bank u ≠ none)
    (hrej : (validate_cb s aux args).errmsg ≠ none) :
    (validate_cb s aux args).store = s ∧ (validate_cb s aux args).aux = aux ∧
      (validate_cb s aux args).ret = -1 := by
  cases args with
  | none => exact ⟨rfl, rfl, rfl⟩
  | some a =>
    obtain ⟨u, bank⟩ := a
    cases hu : s.users u with
    | none => simp [validate_cb, hu, flux_jobtap_reject_job]
    | some banks =>
      cases bank with
      | some bk =>
        cases hb : banks bk with
        | none => simp [validate_cb, hu, hb, flux_jobtap_reject_job]
        | some r =>
          have hv : validate_cb s aux (some (u, some bk)) = validate_cb_found s aux u bk r := by
            simp [validate_cb, hu, hb]
          rw [hv] at hrej ⊢
          exact validate_cb_found_rejected s aux u bk r hrej
      | none =>
        have hd : s.users_def_bank u ≠ none := hdef u rfl (by rw [hu]; simp)
        obtain ⟨d, hd⟩ := Option.ne_none_iff_exists'.mp hd
        have hidx := def_bank_index_of_some s u d hd
        cases hb : banks d with
        | none => simp [validate_cb, hu, hidx, hb, flux_jobtap_reject_job]
        | some r =>
          have hv : validate_cb s aux (some (u, none)) = validate_cb_found s aux u d r := by
            simp [validate_cb, hu, hidx, hb]
          rw [hv] at hrej ⊢
          exact validate_cb_found_rejected s aux u d r hrej

/-- C3. In every state `t` that the plugin reaches from its start, whatever
the admission input and the aux slot of the job, a rejection by `validate_cb`,
for any reason, leaves both maps and the aux slot of the job as they were and
returns -1; run by the host on a job, the rejected submission leaves the whole
state `t` as it was. -/
theorem rejection_atomic (ops : List Op) (t : Sys) (es : List Event)
    (hrun : run Sys.start ops = .ok (t, es)) (args : Option (Int × Option String)) :
    (∀ aux : Option Ref, (validate_cb t.store aux args).errmsg ≠ none →
      (validate_cb t.store aux args).store = t.store ∧
        (validate_cb t.store aux args).aux = aux ∧
        (validate_cb t.store aux args).ret = -1) ∧
    (∀ job : Nat, (validate_cb t.store (t.aux job) args).errmsg ≠ none →
      ∃ msg, step t (Op.validate job args) = .ok (t, Event.rejected job msg)) := by
  have hcons := reachable_consistent ops t es hrun
  have hall : ∀ aux : Option Ref, (validate_cb t.store aux args).errmsg ≠ none →
      (validate_cb t.store aux args).store = t.store ∧
        (validate_cb t.store aux args).aux = aux ∧
        (validate_cb t.store aux args).ret = -1 :=
    fun aux hrej => validate_cb_rejected t.store aux args (fun u _ hu => hcons u hu) hrej
  refine ⟨hall, ?_⟩
  intro job hrej
  obtain ⟨hs, ha, _⟩ := hall (t.aux job) hrej
  obtain ⟨msg, hmsg⟩ := Option.ne_none_iff_exists'.mp hrej
  refine ⟨msg, ?_⟩
  simp only [step, validate_event, hmsg, hs, ha, Function.update_eq_self]

/-- C3 after the bulk update that registers user 42 under bank b1 with the
default bank b2: a submission of user 42 without bank is rejected, the default
bank holding no record, and the state is as it was. -/
theorem rejection_atomic_witness :
    run Sys.start [Op.rec_update (some stray_payload)] =
        .ok (stray_start, [Event.updated true]) ∧
      (validate_cb stray_start.store none (some (42, none))).errmsg =
        some "user/default bank entry does not exist" ∧
      (validate_cb stray_start.store none (some (42, none))).store = stray_start.store ∧
      (validate_cb stray_start.store none (some (42, none))).aux = none ∧
      (validate_cb stray_start.store none (some (42, none))).ret = -1 := by
  have hrun : run Sys.start [Op.rec_update (some stray_payload)] =
      .ok (stray_start, [Event.updated true]) := rfl
  have herr : (validate_cb stray_start.store none (some (42, none))).errmsg =
      some "user/default bank entry does not exist" := by
    simp only [stray_start, rec_update_cb, stray_payload, atoi_42, atoi_2, atof_0_002]
    simp [validate_cb, def_bank_index, Store.set, Store.index, Store.get, Store.empty,
      flux_jobtap_reject_job]
  exact ⟨hrun, herr,
    (rejection_atomic [Op.rec_update (some stray_payload)] stray_start
      [Event.updated true] hrun (some (42, none))).1 none (by rw [herr]; simp)⟩

/-! ## C4: bulk upsert -/

/-- C5. When the bank looked up for the submission holds a record with
fairshare 0, `validate_cb` rejects with the zero-fairshare message, returns -1
and leaves `users` and the aux slot as they were, whatever `max_jobs` and
`current_jobs` are. -/
theorem zero_fairshare_rejected (s : Store) (aux : Option Ref) (u : Int)
    (bank : Option String) (r : bank_info)
    (hget : s.get u (resolved_bank s u bank) = some r) (hf : r.fairshare = 0) :
    (validate_cb s aux (some (u, bank))).errmsg = some "user fairshare value is 0" ∧
      (validate_cb s aux (some (u, bank))).ret = -1 ∧
      (validate_cb s aux (some (u, bank))).aux = aux ∧
      (validate_cb s aux (some (u, bank))).store.users = s.users := by
  unfold Store.get at hget
  cases hu : s.users u with
  | none => simp [hu] at hget
  | some banks =>
    simp only [hu] at hget
    cases bank with
    | some bk =>
      simp only [resolved_bank] at hget
      simp [validate_cb, hu, hget, validate_cb_found, hf, flux_jobtap_reject_job]
    | none =>
      simp only [resolved_bank] at hget
      simp [validate_cb, hu, hget, validate_cb_found, hf, flux_jobtap_reject_job,
        def_bank_index_users]

/-- C5 where the quota is used up as well: with the bank named and with the
bank left to the default, the message is the zero-fairshare one. -/
theorem zero_fairshare_rejected_witness :
    ((validate_cb exhausted_store none (some (1, some "a"))).errmsg =
        some "user fairshare value is 0" ∧
      (validate_cb exhausted_store none (some (1, some "a"))).ret = -1 ∧
      (validate_cb exhausted_store none (some (1, some "a"))).aux = none ∧
      (validate_cb exhausted_store none (some (1, some "a"))).store.users =
        exhausted_store.users) ∧
    exhausted_store.get 1 "a" = some { fairshare := 0, max_jobs := 1, current_jobs := 1 } :=
  ⟨zero_fairshare_rejected exhausted_store none 1 (some "a")
      { fairshare := 0, max_jobs := 1, current_jobs := 1 }
      (by simp [Store.get, resolved_bank, exhausted_store]) rfl,
    by simp [Store.get, exhausted_store]⟩

/-- C6. A user without entry in `users` is rejected with the user-not-found
message, whether or not a bank is supplied and whatever `users_def_bank`
holds; nothing changes. -/
theorem unknown_user_rejected (s : Store) (aux : Option Ref) (u : Int)
    (bank : Option String) (hu : s.users u = none) :
    validate_cb s aux (some (u, bank)) =
      flux_jobtap_reject_job s aux "user not found in flux-accounting DB" := by
  simp only [validate_cb, hu]

/-- C6 for user 5 of `ghost_store`, who has a default bank entry but no
record, submitting without bank. -/
theorem unknown_user_rejected_witness :
    ghost_store.users_def_bank 5 = some "x" ∧
    validate_cb ghost_store none (some (5, none)) =
      flux_jobtap_reject_job ghost_store none "user not found in flux-accounting DB" :=
  ⟨rfl, unknown_user_rejected ghost_store none 5 none rfl⟩

/-- C7. For a user with an entry in `users`: (a) a supplied bank that is not
registered under the user is rejected with the specified-bank message; (b)
when the user's default bank is `d`, a submission without bank has the very
outcome of the submission naming `d` if `d` is registered under the user, and
otherwise is rejected with the default-bank message where the submission
naming `d` is rejected with the specified-bank message; (c) after a bulk update
with default bank `d` the user's default bank is `d`, so that a submission
without bank has the outcome of the submission naming `d` whenever `d` is
registered. -/
theorem default_bank_resolution (s : Store) (aux : Option Ref) (u : Int)
    (banks : String → Option bank_info) (hu : s.users u = some banks) :
    (∀ bk, banks bk = none →
      validate_cb s aux (some (u, some bk)) =
        flux_jobtap_reject_job s aux "user does not belong to specified bank") ∧
    (∀ d, s.users_def_bank u = some d →
      (banks d ≠ none →
        validate_cb s aux (some (u, none)) = validate_cb s aux (some (u, some d))) ∧
      (banks d = none →
        validate_cb s aux (some (u, none)) =
          flux_jobtap_reject_job s aux "user/default bank entry does not exist")) ∧
    (∀ (s0 : Store) (m : Payload), s = (rec_update_cb s0 (some m)).1 →
      u = atoi m.userid →
      s.users_def_bank u = some m.default_bank ∧
      (banks m.default_bank ≠ none →
        validate_cb s aux (some (u, none)) =
          validate_cb s aux (some (u, some m.default_bank)))) := by
  have hb : ∀ d, s.users_def_bank u = some d →
      (banks d ≠ none →
        validate_cb s aux (some (u, none)) = validate_cb s aux (some (u, some d))) ∧
      (banks d = none →
        validate_cb s aux (some (u, none)) =
          flux_jobtap_reject_job s aux "user/default bank entry does not exist") := by
    intro d hd
    have hidx := def_bank_index_of_some s u d hd
    constructor
    · intro hne
      obtain ⟨r, hr⟩ := Option.ne_none_iff_exists'.mp hne
      simp [validate_cb, hu, hidx, hr]
    · intro hnone
      simp [validate_cb, hu, hidx, hnone]
  refine ⟨?_, hb, ?_⟩
  · intro bk hbk
    simp [validate_cb, hu, hbk]
  · intro s0 m hs hm
    have hd : s.users_def_bank u = some m.default_bank := by
      subst hs; subst hm
      simp [rec_update_cb]
    exact ⟨hd, (hb _ hd).1⟩

/-- C7 for user 1 of `plain_store`: the unregistered bank zz is rejected, and
the submission without bank has the outcome of the one naming the default
bank a, which is an admission. -/
theorem default_bank_resolution_witness :
    validate_cb plain_store none (some (1, some "zz")) =
      flux_jobtap_reject_job plain_store none "user does not belong to specified bank" ∧
    validate_cb plain_store none (some (1, none)) =
      validate_cb plain_store none (some (1, some "a")) ∧
    (validate_cb plain_store none (some (1, some "a"))).aux = some (1, "a") :=
  ⟨(default_bank_resolution plain_store none 1
      (fun b => if b = "a" then
        some { fairshare := 1, max_jobs := 0, current_jobs := 0 } else none) rfl).1
      "zz" (by simp),
   ((default_bank_resolution plain_store none 1
      (fun b => if b = "a" then
        some { fairshare := 1, max_jobs := 0, current_jobs := 0 } else none) rfl).2.1
      "a" rfl).1 (by simp),
   by simp [validate_cb, plain_store, validate_cb_found]⟩

/-! ## C8, C9, C10: the priority computation -/

theorem c_round_nonneg (x : ℚ) (h : 0 ≤ x) : 0 ≤ c_round x := by
  simp only [c_round, if_pos h]
  exact Int.floor_nonneg.mpr (by linarith)

theorem c_round_of_neg (x : ℚ) (h : x < 0) : c_round x = - c_round (-x) := by
  have h1 : ¬ (0 ≤ x) := not_le.mpr h
  have h2 : 0 ≤ -x := by linarith
  simp only [c_round, if_neg h1, if_pos h2]
  rw [← Int.ceil_neg]
  congr 1
  ring

/-- The code's `abs (round (x))` is `round (|x|)`. -/
theorem c_abs_c_round (x : ℚ) : c_abs (c_round x) = c_round |x| := by
  by_cases h : 0 ≤ x
  · rw [abs_of_nonneg h]
    have := c_round_nonneg x h
    simp only [c_abs, if_neg (not_lt.mpr this)]
  · have hx : x < 0 := not_le.mp h
    rw [abs_of_neg hx, c_round_of_neg x hx]
    have := c_round_nonneg (-x) (by linarith)
    unfold c_abs
    split_ifs <;> omega

theorem c_round_intCast (z : Int) : c_round (z : ℚ) = z := by
  unfold c_round
  split_ifs with h
  · rw [Int.floor_eq_iff]
    constructor <;> linarith
  · rw [Int.ceil_eq_iff]
    constructor <;> linarith

/-- The function `round` of C is monotone. -/
theorem c_round_mono (x y : ℚ) (h : x ≤ y) : c_round x ≤ c_round y := by
  by_cases hx : 0 ≤ x
  · have hy : 0 ≤ y := le_trans hx h
    simp only [c_round, if_pos hx, if_pos hy]
    exact Int.floor_mono (by linarith)
  · by_cases hy : 0 ≤ y
    · have h1 : c_round x ≤ 0 := by
        simp only [c_round, if_neg hx]
        rw [Int.ceil_le]
        push_cast
        linarith [not_le.mp hx]
      exact le_trans h1 (c_round_nonneg y hy)
    · simp only [c_round, if_neg hx, if_neg hy]
      exact Int.ceil_mono (by linarith)

/-- The conversion to `int64_t` keeps a value within the range of `int`. -/
theorem to_int64_of_range (z : Int) (h1 : -2147483648 ≤ z) (h2 : z ≤ 2147483647) :
    to_int64 z = z := by
  unfold to_int64
  rw [if_pos ⟨by omega, by omega⟩]

/-- The sum of line 83, computed in binary64, is at most an integer `B` that
bounds the exact sum, for operands within the range of `int`. -/
theorem line_83_le (f : ℚ) (k B : Int) (hk : |((B - k : Int) : ℚ)| < 2 ^ 53)
    (hB : |(B : ℚ)| < 2 ^ 53) (h : 100000 * f + (k : ℚ) ≤ (B : ℚ)) :
    round_double (round_double (100000 * f) + (k : ℚ)) ≤ (B : ℚ) := by
  have h1 : round_double (100000 * f) ≤ ((B - k : Int) : ℚ) := by
    rw [← round_double_intCast (B - k) hk]
    exact round_double_mono _ _ (by push_cast; linarith)
  rw [← round_double_intCast B hB]
  exact round_double_mono _ _ (by push_cast at h1; linarith)

/-- The sum of line 83, computed in binary64, is at least an integer `A` that
is below the exact sum, for operands within the range of `int`. -/
theorem line_83_ge (f : ℚ) (k A : Int) (hk : |((A - k : Int) : ℚ)| < 2 ^ 53)
    (hA : |(A : ℚ)| < 2 ^ 53) (h : (A : ℚ) ≤ 100000 * f + (k : ℚ)) :
    (A : ℚ) ≤ round_double (round_double (100000 * f) + (k : ℚ)) := by
  have h1 : ((A - k : Int) : ℚ) ≤ round_double (100000 * f) := by
    rw [← round_double_intCast (A - k) hk]
    exact round_double_mono _ _ (by push_cast; linarith)
  rw [← round_double_intCast A hA]
  exact round_double_mono _ _ (by push_cast at h1; linarith)

/-- The sum of line 83, computed in binary64, is monotone in the fairshare. -/
theorem line_83_mono (f1 f2 x : ℚ) (h : f1 ≤ f2) :
    round_double (round_double (100000 * f1) + x) ≤
      round_double (round_double (100000 * f2) + x) :=
  round_double_mono _ _
    (add_le_add_right (round_double_mono _ _ (by linarith)) x)

/-- What `priority_calculation` computes for a job bound to a record, under an
urgency that is neither sentinel. -/
theorem priority_calculation_bound (s : Store) (ref : Ref) (r : bank_info) (userid : Int)
    (bank : Option String) (urgency : Int) (hget : s.get ref.1 ref.2 = some r)
    (hhold : urgency ≠ FLUX_JOB_URGENCY_HOLD)
    (hexp : urgency ≠ FLUX_JOB_URGENCY_EXPEDITE) :
    priority_calculation s (some ref) userid bank urgency =
      .ok (to_int64 (c_abs (c_round (round_double
        (round_double (100000 * r.fairshare) + ((urgency - 16 : Int) : ℚ))))), none) := by
  simp only [priority_calculation, if_neg hhold, if_neg hexp, hget]
  push_cast
  rfl

/-- The value returned at line 85 when the sum of line 83 is within the range
of `int`: the conversion changes nothing and `abs (round (y))` is
`round (|y|)`. -/
theorem line_85_of_range (y : ℚ) (h : |y| ≤ 2147483647) :
    to_int64 (c_abs (c_round y)) = c_round |y| ∧ 0 ≤ c_round |y| ∧
      c_round |y| ≤ 2147483647 := by
  have h0 : 0 ≤ c_round |y| := c_round_nonneg _ (abs_nonneg _)
  have h1 : c_round |y| ≤ 2147483647 := by
    have := c_round_mono |y| ((2147483647 : Int) : ℚ) (by push_cast; exact h)
    rwa [c_round_intCast] at this
  rw [c_abs_c_round, to_int64_of_range _ (by omega) h1]
  exact ⟨rfl, h0, h1⟩

/-- C9. Whatever the store, the user, the bank and the aux slot of the job
(unbound, bound to any record, or not pointing to a record at all), the hold
urgency yields `FLUX_JOB_PRIORITY_MIN` and the expedite urgency yields
`FLUX_JOB_PRIORITY_MAX`, no exception is raised, and `priority_cb` packs that
priority and returns 0 with the store and the aux slot as they were. -/
theorem sentinel_priorities (s : Store) (aux : Option Ref) (userid : Int)
    (bank : Option String) :
    priority_calculation s aux userid bank FLUX_JOB_URGENCY_HOLD =
        .ok (FLUX_JOB_PRIORITY_MIN, none) ∧
      priority_calculation s aux userid bank FLUX_JOB_URGENCY_EXPEDITE =
        .ok (FLUX_JOB_PRIORITY_MAX, none) ∧
      priority_cb s aux (some (FLUX_JOB_URGENCY_HOLD, userid, bank)) =
        .ok { store := s, aux := aux, ret := 0, errmsg := none, raised := none,
              priority := some FLUX_JOB_PRIORITY_MIN } ∧
      priority_cb s aux (some (FLUX_JOB_URGENCY_EXPEDITE, userid, bank)) =
        .ok { store := s, aux := aux, ret := 0, errmsg := none, raised := none,
              priority := some FLUX_JOB_PRIORITY_MAX } := by
  have hne : FLUX_JOB_URGENCY_EXPEDITE ≠ FLUX_JOB_URGENCY_HOLD := by decide
  have h1 : priority_calculation s aux userid bank FLUX_JOB_URGENCY_HOLD =
      .ok (FLUX_JOB_PRIORITY_MIN, none) := by
    simp only [priority_calculation, if_true]
  have h2 : priority_calculation s aux userid bank FLUX_JOB_URGENCY_EXPEDITE =
      .ok (FLUX_JOB_PRIORITY_MAX, none) := by
    simp only [priority_calculation, if_neg hne, if_true]
  exact ⟨h1, h2, by simp only [priority_cb, h1], by simp only [priority_cb, h2]⟩

theorem step_priority_same (t : Sys) (job : Nat)
    (args : Option (Int × Int × Option String))
    (hvalid : ∀ ref, t.aux job = some ref → ∃ r, t.store.get ref.1 ref.2 = some r) :
    ∃ e, step t (Op.priority job args) = .ok (t, e) := by
  obtain ⟨o, ho, hs, ha⟩ := priority_cb_returns t.store (t.aux job) args hvalid
  have ht : ({ store := o.store, aux := Function.update t.aux job o.aux } : Sys) = t := by
    rw [hs, ha, Function.update_eq_self]
  refine ⟨match o.priority with
    | some p => Event.priority_set job p o.raised
    | none => Event.failed job, ?_⟩
  simp only [step, ho, ht]

theorem run_replicate_same (t : Sys) (op : Op) (e : Event) (h : step t op = .ok (t, e))
    (n : Nat) : run t (List.replicate n op) = .ok (t, List.replicate n e) := by
  induction n with
  | zero => rfl
  | succ n ih => simp only [List.replicate_succ, run, h, ih]

theorem priority_calculation_congr (s1 s2 : Store) (ref1 ref2 : Ref) (r1 r2 : bank_info)
    (uid1 uid2 : Int) (bank1 bank2 : Option String) (urgency : Int)
    (h1 : s1.get ref1.1 ref1.2 = some r1) (h2 : s2.get ref2.1 ref2.2 = some r2)
    (hf : r1.fairshare = r2.fairshare) :
    priority_calculation s1 (some ref1) uid1 bank1 urgency =
      priority_calculation s2 (some ref2) uid2 bank2 urgency := by
  simp only [priority_calculation, h1, h2, hf]

/-- C10. For a job whose aux slot is unbound or points to a record: a call of
`priority_cb` returns and leaves the store and the aux slot as they were; any
number of calls in a row leave the whole state as it was and report the same
result each time; and for bound jobs the priority depends on the record's
fairshare and the urgency only, not on the store, the record's `max_jobs` and
`current_jobs`, the user or the bank. -/
theorem priority_pure (t : Sys) (job : Nat) (args : Option (Int × Int × Option String))
    (n : Nat)
    (hvalid : ∀ ref, t.aux job = some ref → ∃ r, t.store.get ref.1 ref.2 = some r) :
    (∃ o, priority_cb t.store (t.aux job) args = .ok o ∧ o.store = t.store ∧
        o.aux = t.aux job) ∧
      (∃ e, run t (List.replicate n (Op.priority job args)) =
        .ok (t, List.replicate n e)) ∧
      (∀ (s1 s2 : Store) (ref1 ref2 : Ref) (r1 r2 : bank_info) (uid1 uid2 : Int)
        (bank1 bank2 : Option String) (urgency : Int),
        s1.get ref1.1 ref1.2 = some r1 → s2.get ref2.1 ref2.2 = some r2 →
        r1.fairshare = r2.fairshare →
        priority_calculation s1 (some ref1) uid1 bank1 urgency =
          priority_calculation s2 (some ref2) uid2 bank2 urgency) := by
  refine ⟨priority_cb_returns t.store (t.aux job) args hvalid, ?_,
    priority_calculation_congr⟩
  obtain ⟨e, he⟩ := step_priority_same t job args hvalid
  exact ⟨e, run_replicate_same t _ e he n⟩

/-- C10 on the scenario, for job 1 bound to the record of user 42: three calls
with urgency 16. -/
theorem priority_pure_witness :
    (∃ o, priority_cb scenario_bound.store (scenario_bound.aux 1) (some (16, 42, none)) =
          .ok o ∧ o.store = scenario_bound.store ∧ o.aux = scenario_bound.aux 1) ∧
      (∃ e, run scenario_bound (List.replicate 3 (Op.priority 1 (some (16, 42, none)))) =
        .ok (scenario_bound, List.replicate 3 e)) ∧
      (∀ (s1 s2 : Store) (ref1 ref2 : Ref) (r1 r2 : bank_info) (uid1 uid2 : Int)
        (bank1 bank2 : Option String) (urgency : Int),
        s1.get ref1.1 ref1.2 = some r1 → s2.get ref2.1 ref2.2 = some r2 →
        r1.fairshare = r2.fairshare →
        priority_calculation s1 (some ref1) uid1 bank1 urgency =
          priority_calculation s2 (some ref2) uid2 bank2 urgency) :=
  priority_pure scenario_bound 1 (some (16, 42, none)) 3
    (by
      intro ref h
      have h1 : ref = (42, "b1") := by
        simp [scenario_bound] at h
        exact h.symm
      subst h1
      exact ⟨_, scenario_start_get⟩)

/-! ## C11: malformed bulk payloads -/

theorem flux_request_unpack_none (msg : Msg)
    (h : ∃ key ∈ required_keys, unpack_string msg key = none) :
    flux_request_unpack msg = none := by
  obtain ⟨key, hk, hnone⟩ := h
  simp only [required_keys, List.mem_cons, List.mem_singleton, List.not_mem_nil,
    or_false] at hk
  unfold flux_request_unpack
  rcases hk with rfl | rfl | rfl | rfl | rfl <;> rw [hnone] <;> split <;> simp_all

theorem junk_msg_unpack :
    flux_request_unpack junk_msg =
      some { userid := "x1", bank := "b1", default_bank := "b1", fairshare := "abc",
             max_jobs := "" } := by
  simp [flux_request_unpack, unpack_string, junk_msg]

theorem atoi_junk : atoi "x1" = 0 ∧ atoi "" = 0 := by decide

theorem atof_junk : atof "abc" = 0 := by
  have h : atof "abc" = read_double ['a', 'b', 'c'] := by
    simp [atof, isspace, reads_nan, starts_with_letters]
  rw [h]
  unfold read_double
  simp only [starts_with_letters]
  simp [read_decimal, read_digits, read_exponent, round_double, grid_round, round_half_even]
  unfold double_inf; norm_num

/-- C11, as the code has it. A request in which one of the five keys is
missing, or holds a value that is not a string, is answered with an error and
leaves both maps as they were. A request with the five strings is applied and
answered with success whatever the strings are: the numbers are read with
`atoi` and `atof`, which give 0 when no number can be read. -/
theorem malformed_payload_rejected (s : Store) (msg : Msg) :
    ((∃ key ∈ required_keys, unpack_string msg key = none) →
      rec_update_cb_msg s msg = (s, false)) ∧
    (∀ m, flux_request_unpack msg = some m →
      (rec_update_cb_msg s msg).2 = true ∧
      (rec_update_cb_msg s msg).1.get (atoi m.userid) m.bank =
        some { fairshare := atof m.fairshare, max_jobs := atoi m.max_jobs,
               current_jobs := (s.index (atoi m.userid) m.bank).current_jobs } ∧
      (rec_update_cb_msg s msg).1.users_def_bank (atoi m.userid) =
        some m.default_bank) := by
  constructor
  · intro h
    simp only [rec_update_cb_msg, flux_request_unpack_none msg h, rec_update_cb]
  · intro m hm
    simp only [rec_update_cb_msg, hm]
    refine ⟨rfl, ?_, ?_⟩
    · exact Store.get_set_same _ _ _ _
    · simp [rec_update_cb]

/-- C11 on the request `short_msg`, which lacks the key `max_jobs`, received
in the scenario's state. -/
theorem malformed_payload_rejected_witness :
    unpack_string short_msg "max_jobs" = none ∧
      rec_update_cb_msg scenario_start.store short_msg = (scenario_start.store, false) :=
  ⟨rfl, (malformed_payload_rejected scenario_start.store short_msg).1
    ⟨"max_jobs", by simp [required_keys], rfl⟩⟩

/-- C11 fails as stated: the request `junk_msg` carries the strings x1, abc
and the empty string for `userid`, `fairshare` and `max_jobs`; on the empty
store it is answered with success and creates, under user 0 and bank b1, a
record with fairshare 0 and `max_jobs` 0, and a default bank for user 0. -/
theorem malformed_payload_rejected_counterexample :
    (rec_update_cb_msg Store.empty junk_msg).2 = true ∧
      Store.empty.get 0 "b1" = none ∧
      (rec_update_cb_msg Store.empty junk_msg).1.get 0 "b1" =
        some { fairshare := 0, max_jobs := 0, current_jobs := 0 } ∧
      Store.empty.users_def_bank 0 = none ∧
      (rec_update_cb_msg Store.empty junk_msg).1.users_def_bank 0 = some "b1" := by
  simp only [rec_update_cb_msg, junk_msg_unpack, rec_update_cb, atoi_junk.1, atoi_junk.2,
    atof_junk]
  simp [Store.get, Store.set, Store.index, Store.empty]

/-! ## C12, C13: callbacks on a job without binding -/

/-- C12, what the code does. For every store and every job without binding
whose `userid` unpacks, `inactive_cb` raises the exception of lines 280-281
and goes on to line 283, where it dereferences the null pointer: the call does
not return, it ends in undefined behaviour. `priority_calculation` returns
after raising its exception (line 78); `inactive_cb` has no such return. -/
theorem inactive_cb_unbound_faults (s : Store) (userid : Int) :
    inactive_cb s none (some userid) =
      .error (Fault.null_deref
        (some { type := "plugin", severity := 3,
                note := "mf_priority: bank info is missing" })) ∧
    ∀ o, inactive_cb s none (some userid) ≠ .ok o := by
  refine ⟨rfl, ?_⟩
  intro o h
  simp [inactive_cb] at h

/-- C13. For a job without binding and an urgency that is neither sentinel,
`priority_calculation` raises the exception of type plugin and severity 3 with
the note of lines 76-77 and returns priority 0, and `priority_cb` packs that 0
and returns 0 with the store as it was; for a job bound to a record and such an
urgency it returns and raises no exception. -/
theorem priority_without_binding (s : Store) (userid : Int) (bank : Option String)
    (urgency : Int) (hhold : urgency ≠ FLUX_JOB_URGENCY_HOLD)
    (hexp : urgency ≠ FLUX_JOB_URGENCY_EXPEDITE) :
    priority_calculation s none userid bank urgency =
        .ok (0, some { type := "plugin", severity := 3,
                       note := "mf_priority: bank info is missing; holding job" }) ∧
      priority_cb s none (some (urgency, userid, bank)) =
        .ok { store := s, aux := none, ret := 0, errmsg := none,
              raised := some { type := "plugin", severity := 3,
                               note := "mf_priority: bank info is missing; holding job" },
              priority := some 0 } ∧
      (∀ (ref : Ref) (r : bank_info), s.get ref.1 ref.2 = some r →
        ∃ p, priority_calculation s (some ref) userid bank urgency = .ok (p, none) ∧
          priority_cb s (some ref) (some (urgency, userid, bank)) =
            .ok { store := s, aux := some ref, ret := 0, errmsg := none, raised := none,
                  priority := some p }) := by
  have h1 : priority_calculation s none userid bank urgency =
      .ok (0, some { type := "plugin", severity := 3,
                     note := "mf_priority: bank info is missing; holding job" }) := by
    simp only [priority_calculation, if_neg hhold, if_neg hexp]
  refine ⟨h1, by simp only [priority_cb, h1], ?_⟩
  intro ref r hr
  have h2 := priority_calculation_bound s ref r userid bank urgency hr hhold hexp
  exact ⟨_, h2, by simp only [priority_cb, h2]⟩

/-- C13 in the scenario's state, with urgency 16, for a job without binding
and for a job bound to the record of user 42. -/
theorem priority_without_binding_witness :
    priority_calculation scenario_start.store none 42 none 16 =
        .ok (0, some { type := "plugin", severity := 3,
                       note := "mf_priority: bank info is missing; holding job" }) ∧
      ∃ p, priority_calculation scenario_start.store (some (42, "b1")) 42 none 16 =
        .ok (p, none) :=
  ⟨(priority_without_binding scenario_start.store 42 none 16 (by decide) (by decide)).1,
   ((priority_without_binding scenario_start.store 42 none 16 (by decide) (by decide)).2.2
      (42, "b1") _ scenario_start_get).imp fun _ h => h.1⟩

/-! ## C14, C17: when and how `validate_cb` admits -/

theorem lookup_store_users (s : Store) (u : Int) (bank : Option String) :
    (lookup_store s u bank).users = s.users := by
  cases bank with
  | some bk => rfl
  | none => exact def_bank_index_users s u

theorem lookup_store_eq (s : Store) (u : Int) (bank : Option String)
    (h : bank ≠ none ∨ s.users_def_bank u ≠ none) : lookup_store s u bank = s := by
  cases bank with
  | some bk => rfl
  | none =>
    rcases h with h | h
    · exact absurd rfl h
    · obtain ⟨d, hd⟩ := Option.ne_none_iff_exists'.mp h
      simp only [lookup_store, def_bank_index_of_some s u d hd]

/-- Once the bank looked up holds a record, `validate_cb` runs the checks of
lines 227-250 on that record. -/
theorem validate_cb_resolved (s : Store) (aux : Option Ref) (u : Int)
    (bank : Option String) (r : bank_info)
    (hget : s.get u (resolved_bank s u bank) = some r) :
    validate_cb s aux (some (u, bank)) =
      validate_cb_found (lookup_store s u bank) aux u (resolved_bank s u bank) r := by
  unfold Store.get at hget
  cases hu : s.users u with
  | none => simp [hu] at hget
  | some banks =>
    simp only [hu] at hget
    cases bank with
    | some bk =>
      simp only [resolved_bank] at hget
      simp [validate_cb, hu, hget, resolved_bank, lookup_store]
    | none =>
      simp only [resolved_bank] at hget
      simp [validate_cb, hu, hget, resolved_bank, lookup_store]

/-- When the bank looked up holds no record, `validate_cb` rejects. -/
theorem validate_cb_unresolved (s : Store) (aux : Option Ref) (u : Int)
    (bank : Option String) (hget : s.get u (resolved_bank s u bank) = none) :
    ∃ msg, (validate_cb s aux (some (u, bank))).errmsg = some msg := by
  unfold Store.get at hget
  cases hu : s.users u with
  | none =>
    exact ⟨"user not found in flux-accounting DB",
      by simp only [validate_cb, hu, flux_jobtap_reject_job]⟩
  | some banks =>
    simp only [hu] at hget
    cases bank with
    | some bk =>
      simp only [resolved_bank] at hget
      exact ⟨"user does not belong to specified bank",
        by simp only [validate_cb, hu, hget, flux_jobtap_reject_job]⟩
    | none =>
      simp only [resolved_bank] at hget
      exact ⟨"user/default bank entry does not exist",
        by simp only [validate_cb, hu, hget, flux_jobtap_reject_job]⟩

/-- What an accepted submission has done, in any store: the default bank map
is as before when the bank was supplied or the user had a default bank
entry. -/
theorem validate_cb_accepted (s : Store) (aux : Option Ref) (u : Int)
    (bank : Option String)
    (hacc : (validate_cb s aux (some (u, bank))).errmsg = none) :
    ∃ r, s.get u (resolved_bank s u bank) = some r ∧
      (validate_cb s aux (some (u, bank))).ret = 0 ∧
      (validate_cb s aux (some (u, bank))).aux = some (u, resolved_bank s u bank) ∧
      (validate_cb s aux (some (u, bank))).store.get u (resolved_bank s u bank) =
        some { fairshare := r.fairshare, max_jobs := r.max_jobs,
               current_jobs := r.current_jobs + 1 } ∧
      (0 < r.max_jobs → r.current_jobs + 1 ≤ r.max_jobs) ∧
      (∀ u1 b1, ¬ (u1 = u ∧ b1 = resolved_bank s u bank) →
        (validate_cb s aux (some (u, bank))).store.get u1 b1 = s.get u1 b1) ∧
      (∀ u1, u1 ≠ u → (validate_cb s aux (some (u, bank))).store.users u1 = s.users u1) ∧
      (bank ≠ none ∨ s.users_def_bank u ≠ none →
        (validate_cb s aux (some (u, bank))).store.users_def_bank = s.users_def_bank) := by
  cases hg : s.get u (resolved_bank s u bank) with
  | none =>
    obtain ⟨msg, hmsg⟩ := validate_cb_unresolved s aux u bank hg
    rw [hmsg] at hacc
    simp at hacc
  | some r =>
    refine ⟨r, rfl, ?_⟩
    rw [validate_cb_resolved s aux u bank r hg] at hacc ⊢
    rcases validate_cb_found_cases (lookup_store s u bank) aux u (resolved_bank s u bank) r
      with ⟨msg, h⟩ | ⟨_, hq, h⟩
    · rw [h] at hacc
      simp [flux_jobtap_reject_job] at hacc
    · rw [h]
      have husers := lookup_store_users s u bank
      refine ⟨rfl, rfl, Store.get_set_same _ _ _ _, ?_, ?_, ?_, ?_⟩
      · intro hpos
        rcases hq with hq | hq <;> omega
      · intro u1 b1 hne
        show ((lookup_store s u bank).set u (resolved_bank s u bank) _).get u1 b1 = _
        rw [Store.get_set_of_ne _ _ _ _ _ _ hne]
        exact Store.get_congr _ _ husers u1 b1
      · intro u1 hne
        show ((lookup_store s u bank).set u (resolved_bank s u bank) _).users u1 = _
        simp [Store.set, Function.update, hne, husers]
      · intro hdef
        show ((lookup_store s u bank).set u (resolved_bank s u bank) _).users_def_bank = _
        rw [lookup_store_eq s u bank hdef]
        rfl

/-- C14. In every state `t` that the plugin reaches from its start, when
`validate_cb` accepts a submission whose record holds fewer than 2147483647
current jobs (at that value the increment of the `int` is undefined), the bank
looked up holds a record; the call returns 0, the job's aux slot points to that
record, whose `current_jobs` has grown by 1 and, if `max_jobs > 0`, does not
exceed `max_jobs`; its fairshare and `max_jobs`, every other record, every
other user's entry of `users` and the default bank map are as before. -/
theorem admission_postcondition (ops : List Op) (t : Sys) (es : List Event)
    (hrun : run Sys.start ops = .ok (t, es)) (aux : Option Ref) (u : Int)
    (bank : Option String)
    (hint : ∀ r, t.store.get u (resolved_bank t.store u bank) = some r →
      r.current_jobs < 2147483647)
    (hacc : (validate_cb t.store aux (some (u, bank))).errmsg = none) :
    ∃ r, t.store.get u (resolved_bank t.store u bank) = some r ∧
      (validate_cb t.store aux (some (u, bank))).ret = 0 ∧
      (validate_cb t.store aux (some (u, bank))).aux =
        some (u, resolved_bank t.store u bank) ∧
      (validate_cb t.store aux (some (u, bank))).store.get u
          (resolved_bank t.store u bank) =
        some { fairshare := r.fairshare, max_jobs := r.max_jobs,
               current_jobs := r.current_jobs + 1 } ∧
      r.current_jobs + 1 ≤ 2147483647 ∧
      (0 < r.max_jobs → r.current_jobs + 1 ≤ r.max_jobs) ∧
      (∀ u1 b1, ¬ (u1 = u ∧ b1 = resolved_bank t.store u bank) →
        (validate_cb t.store aux (some (u, bank))).store.get u1 b1 = t.store.get u1 b1) ∧
      (∀ u1, u1 ≠ u →
        (validate_cb t.store aux (some (u, bank))).store.users u1 = t.store.users u1) ∧
      (validate_cb t.store aux (some (u, bank))).store.users_def_bank =
        t.store.users_def_bank := by
  obtain ⟨r, hr, hret, haux, hget, hq, hframe, husers, hdef⟩ :=
    validate_cb_accepted t.store aux u bank hacc
  have hcons := reachable_consistent ops t es hrun
  have hu : t.store.users u ≠ none := by
    intro hn
    simp [Store.get, hn] at hr
  have hlt := hint r hr
  exact ⟨r, hr, hret, haux, hget, by omega, hq, hframe, husers,
    hdef (Or.inr (hcons u hu))⟩

/-- C14 after the bulk update of the scenario: user 42 submits without bank
and is admitted to the record under the default bank b1. -/
theorem admission_postcondition_witness :
    run Sys.start [Op.rec_update (some scenario_payload)] =
        .ok (scenario_start, [Event.updated true]) ∧
      (validate_cb scenario_start.store none (some (42, none))).aux = some (42, "b1") ∧
      (validate_cb scenario_start.store none (some (42, none))).store.get 42 "b1" =
        some { fairshare := 1152921504606847 / 576460752303423488, max_jobs := 2,
               current_jobs := 0 + 1 } ∧
      (validate_cb scenario_start.store none (some (42, none))).store.users_def_bank =
        scenario_start.store.users_def_bank := by
  have hrun : run Sys.start [Op.rec_update (some scenario_payload)] =
      .ok (scenario_start, [Event.updated true]) := rfl
  have hrb : resolved_bank scenario_start.store 42 none = "b1" := by
    simp [resolved_bank, def_bank_index, scenario_start_def_bank]
  have hacc : (validate_cb scenario_start.store none (some (42, none))).errmsg = none := by
    rw [validate_cb_of_resolves scenario_start.store none 42 none "b1" _ scenario_start_get
      (Or.inr ⟨rfl, scenario_start_def_bank⟩),
      validate_cb_found_accept _ _ _ _ _ (by norm_num) (Or.inr (by decide))]
  obtain ⟨r, hr, _, haux, hget, _, _, _, _, hdef⟩ :=
    admission_postcondition [Op.rec_update (some scenario_payload)] scenario_start
      [Event.updated true] hrun none 42 none
      (by
        intro r hr
        rw [hrb, scenario_start_get] at hr
        rw [← Option.some.inj hr]
        decide)
      hacc
  rw [hrb] at hr haux hget
  have hr1 : r =
      { fairshare := 1152921504606847 / 576460752303423488, max_jobs := 2,
        current_jobs := 0 } := by
    rw [scenario_start_get] at hr
    exact (Option.some.inj hr).symm
  subst hr1
  exact ⟨hrun, haux, hget, hdef⟩

/-- C17. When the bank looked up for a submission (the bank supplied, or the
default bank) holds a record `r`, `validate_cb` accepts, that is returns 0
without rejection message, if and only if `r.fairshare ≠ 0` and
`r.max_jobs ≤ 0` or `r.current_jobs < r.max_jobs`; so with `max_jobs = 0` and
a fairshare other than 0 it accepts whatever `current_jobs` is. -/
theorem acceptance_condition (s : Store) (aux : Option Ref) (u : Int)
    (bank : Option String) (r : bank_info)
    (hget : s.get u (resolved_bank s u bank) = some r) :
    ((validate_cb s aux (some (u, bank))).errmsg = none ↔
        (r.fairshare ≠ 0 ∧ (r.max_jobs ≤ 0 ∨ r.current_jobs < r.max_jobs))) ∧
      ((validate_cb s aux (some (u, bank))).ret = 0 ↔
        (r.fairshare ≠ 0 ∧ (r.max_jobs ≤ 0 ∨ r.current_jobs < r.max_jobs))) ∧
      (r.fairshare ≠ 0 → r.max_jobs = 0 →
        (validate_cb s aux (some (u, bank))).errmsg = none ∧
          (validate_cb s aux (some (u, bank))).ret = 0) := by
  rw [validate_cb_resolved s aux u bank r hget]
  by_cases hc : r.fairshare ≠ 0 ∧ (r.max_jobs ≤ 0 ∨ r.current_jobs < r.max_jobs)
  · rw [validate_cb_found_accept _ aux u _ r hc.1 hc.2]
    exact ⟨⟨fun _ => hc, fun _ => rfl⟩, ⟨fun _ => hc, fun _ => rfl⟩, fun _ _ => ⟨rfl, rfl⟩⟩
  · have hrej : ∃ msg, validate_cb_found (lookup_store s u bank) aux u
        (resolved_bank s u bank) r =
          flux_jobtap_reject_job (lookup_store s u bank) aux msg := by
      rcases validate_cb_found_cases (lookup_store s u bank) aux u
        (resolved_bank s u bank) r with h | ⟨hf, hq, _⟩
      · exact h
      · exact absurd ⟨hf, hq⟩ hc
    obtain ⟨msg, hmsg⟩ := hrej
    rw [hmsg]
    refine ⟨⟨fun h => ?_, fun h => absurd h hc⟩, ⟨fun h => ?_, fun h => absurd h hc⟩, ?_⟩
    · simp [flux_jobtap_reject_job] at h
    · simp [flux_jobtap_reject_job] at h
    · intro hf hm
      exact absurd ⟨hf, Or.inl (le_of_eq hm)⟩ hc

/-- C17 on `crowded_store`: a record without quota and with a fairshare of 1
admits one more job although it has a thousand million current jobs. -/
theorem acceptance_condition_witness :
    (validate_cb crowded_store none (some (1, some "a"))).errmsg = none ∧
      (validate_cb crowded_store none (some (1, some "a"))).ret = 0 :=
  (acceptance_condition crowded_store none 1 (some "a")
    { fairshare := 1, max_jobs := 0, current_jobs := 1000000000 }
    (by simp [Store.get, resolved_bank, crowded_store])).2.2 (by norm_num) rfl

/-! ## What an invocation that returns has done -/

/-- Overwriting a record by one with the same fairshare and `max_jobs` changes
no key, no fairshare and no `max_jobs`. -/
theorem Store.get_set_fields (s : Store) (u : Int) (b : String) (r x : bank_info)
    (hget : s.get u b = some r) (hf : x.fairshare = r.fairshare)
    (hm : x.max_jobs = r.max_jobs) (u1 : Int) (b1 : String) :
    ((s.set u b x).get u1 b1).map (fun y => (y.fairshare, y.max_jobs)) =
      (s.get u1 b1).map (fun y => (y.fairshare, y.max_jobs)) := by
  by_cases hk : u1 = u ∧ b1 = b
  · obtain ⟨rfl, rfl⟩ := hk
    rw [Store.get_set_same, hget]
    simp [hf, hm]
  · rw [Store.get_set_of_ne _ _ _ _ _ _ hk]

/-- An invocation that returns is a bulk update, or has left `users` and the
aux slots as they were, or is the admission of a job to an existing record, or
is the cleanup of a bound job on the record it is bound to. -/
theorem step_ok_spec (t : Sys) (op : Op) (t1 : Sys) (e : Event)
    (hstep : step t op = .ok (t1, e)) :
    (∃ msg, op = Op.rec_update msg ∧ t1.store = (rec_update_cb t.store msg).1 ∧
        t1.aux = t.aux) ∨
    (t1.store.users = t.store.users ∧ t1.aux = t.aux) ∨
    (∃ job args ref r, op = Op.validate job args ∧ t.store.get ref.1 ref.2 = some r ∧
        t1.store.users = (t.store.set ref.1 ref.2
          { fairshare := r.fairshare, max_jobs := r.max_jobs,
            current_jobs := r.current_jobs + 1 }).users ∧
        t1.aux = Function.update t.aux job (some ref)) ∨
    (∃ job args ref r, op = Op.inactive job args ∧ t.aux job = some ref ∧
        t.store.get ref.1 ref.2 = some r ∧
        t1.store.users = (t.store.set ref.1 ref.2
          { fairshare := r.fairshare, max_jobs := r.max_jobs,
            current_jobs := r.current_jobs - 1 }).users ∧
        t1.aux = t.aux) := by
  cases op with
  | rec_update msg =>
    simp only [step, Except.ok.injEq, Prod.mk.injEq] at hstep
    left
    exact ⟨msg, rfl, by rw [← hstep.1], by rw [← hstep.1]⟩
  | validate job args =>
    simp only [step, Except.ok.injEq, Prod.mk.injEq] at hstep
    rcases validate_cb_cases t.store (t.aux job) args with
      ⟨_, _, _, ha, hu⟩ | ⟨u, b, r, hget, _, _, _, _, ha, hu⟩
    · right; left
      rw [← hstep.1]
      exact ⟨hu, by
        show Function.update t.aux job (validate_cb t.store (t.aux job) args).aux = t.aux
        rw [ha]; exact Function.update_eq_self _ _⟩
    · right; right; left
      rw [← hstep.1]
      exact ⟨job, args, (u, b), r, rfl, hget, hu, by
        show Function.update t.aux job (validate_cb t.store (t.aux job) args).aux = _
        rw [ha]⟩
  | priority job args =>
    right; left
    cases args with
    | none =>
      simp only [step, priority_cb, Except.ok.injEq, Prod.mk.injEq] at hstep
      rw [← hstep.1]
      exact ⟨rfl, Function.update_eq_self _ _⟩
    | some a =>
      obtain ⟨urgency, userid, bank⟩ := a
      simp only [step, priority_cb] at hstep
      cases hp : priority_calculation t.store (t.aux job) userid bank urgency with
      | error f => simp [hp] at hstep
      | ok p =>
        simp only [hp, Except.ok.injEq, Prod.mk.injEq] at hstep
        rw [← hstep.1]
        exact ⟨rfl, Function.update_eq_self _ _⟩
  | inactive job args =>
    cases args with
    | none =>
      simp only [step, inactive_cb, Except.ok.injEq, Prod.mk.injEq] at hstep
      right; left
      rw [← hstep.1]
      exact ⟨rfl, Function.update_eq_self _ _⟩
    | some uid =>
      cases haux : t.aux job with
      | none => simp [step, inactive_cb, haux] at hstep
      | some ref =>
        cases hget : t.store.get ref.1 ref.2 with
        | none => simp [step, inactive_cb, haux, hget] at hstep
        | some r =>
          simp only [step, inactive_cb, haux, hget, Except.ok.injEq, Prod.mk.injEq] at hstep
          right; right; right
          rw [← hstep.1]
          refine ⟨job, some uid, ref, r, rfl, haux, hget, rfl, ?_⟩
          show Function.update t.aux job (some ref) = t.aux
          rw [← haux]; exact Function.update_eq_self _ _

/-! ## C15: the sign of the stored values -/

theorem step_nonneg (t : Sys) (op : Op) (t1 : Sys) (e : Event)
    (hop : ∀ m, op = Op.rec_update (some m) → 0 ≤ atof m.fairshare ∧ 0 ≤ atoi m.max_jobs)
    (h : t.store.nonneg) (hstep : step t op = .ok (t1, e)) : t1.store.nonneg := by
  have hset : ∀ (ref : Ref) (r x : bank_info), t.store.get ref.1 ref.2 = some r →
      x.fairshare = r.fairshare → x.max_jobs = r.max_jobs →
      t1.store.users = (t.store.set ref.1 ref.2 x).users → t1.store.nonneg := by
    intro ref r x hget hf hm husers u b y hy
    rw [Store.get_congr _ _ husers] at hy
    by_cases hk : u = ref.1 ∧ b = ref.2
    · obtain ⟨rfl, rfl⟩ := hk
      rw [Store.get_set_same] at hy
      cases hy
      rw [hf, hm]
      exact h _ _ r hget
    · rw [Store.get_set_of_ne _ _ _ _ _ _ hk] at hy
      exact h u b y hy
  rcases step_ok_spec t op t1 e hstep with
    ⟨msg, rfl, hs, _⟩ | ⟨hu, _⟩ | ⟨_, _, ref, r, _, hget, hu, _⟩ |
    ⟨_, _, ref, r, _, _, hget, hu, _⟩
  · cases msg with
    | none => rw [hs]; exact h
    | some m =>
      intro u b y hy
      rw [hs] at hy
      have hstore : (rec_update_cb t.store (some m)).1.get u b =
          (t.store.set (atoi m.userid) m.bank
            { fairshare := atof m.fairshare, max_jobs := atoi m.max_jobs,
              current_jobs := (t.store.index (atoi m.userid) m.bank).current_jobs }).get
            u b := rfl
      rw [hstore] at hy
      by_cases hk : u = atoi m.userid ∧ b = m.bank
      · obtain ⟨rfl, rfl⟩ := hk
        rw [Store.get_set_same] at hy
        cases hy
        exact hop m rfl
      · rw [Store.get_set_of_ne _ _ _ _ _ _ hk] at hy
        exact h u b y hy
  · intro u b y hy
    rw [Store.get_congr _ _ hu] at hy
    exact h u b y hy
  · exact hset ref r { fairshare := r.fairshare, max_jobs := r.max_jobs,
                       current_jobs := r.current_jobs + 1 } hget rfl rfl hu
  · exact hset ref r { fairshare := r.fairshare, max_jobs := r.max_jobs,
                       current_jobs := r.current_jobs - 1 } hget rfl rfl hu

theorem run_nonneg (ops : List Op) :
    ∀ (t t1 : Sys) (es : List Event),
      (∀ m, Op.rec_update (some m) ∈ ops → 0 ≤ atof m.fairshare ∧ 0 ≤ atoi m.max_jobs) →
      t.store.nonneg → run t ops = .ok (t1, es) → t1.store.nonneg := by
  induction ops with
  | nil =>
    intro t t1 es _ h hrun
    simp only [run, Except.ok.injEq, Prod.mk.injEq] at hrun
    rw [← hrun.1]; exact h
  | cons op ops ih =>
    intro t t1 es hpay h hrun
    simp only [run] at hrun
    cases hs : step t op with
    | error f => simp [hs] at hrun
    | ok p =>
      obtain ⟨t2, e⟩ := p
      simp only [hs] at hrun
      cases hr : run t2 ops with
      | error f => simp [hr] at hrun
      | ok q =>
        obtain ⟨t3, es3⟩ := q
        simp only [hr, Except.ok.injEq, Prod.mk.injEq] at hrun
        rw [← hrun.1]
        refine ih t2 t3 es3 (fun m hm => hpay m (List.mem_cons_of_mem _ hm)) ?_ hr
        exact step_nonneg t op t2 e
          (fun m hm => hpay m (by rw [hm]; exact List.mem_cons_self _ _)) h hs

/-- C15, as the code has it. The code stores the fairshare and the `max_jobs`
that `atof` and `atoi` read from the payload, whatever their sign. In every
state reached from the empty store by bulk updates, admissions, priority
computations and cleanups in which every payload carries a fairshare and a
`max_jobs` that are not negative, every record holds a fairshare and a
`max_jobs` that are not negative. -/
theorem stored_values_nonneg (ops : List Op) (t : Sys) (es : List Event)
    (hpay : ∀ m, Op.rec_update (some m) ∈ ops →
      0 ≤ atof m.fairshare ∧ 0 ≤ atoi m.max_jobs)
    (hrun : run Sys.start ops = .ok (t, es)) :
    ∀ u b r, t.store.get u b = some r → 0 ≤ r.fairshare ∧ 0 ≤ r.max_jobs :=
  run_nonneg ops Sys.start t es hpay
    (fun u b r h => by simp [Store.get, Sys.start, Store.empty] at h) hrun

theorem atof_neg_half : atof "-0.5" = -1 / 2 := by
  have h : atof "-0.5" = - read_double ['0', '.', '5'] := by
    simp [atof, isspace, reads_nan, starts_with_letters]
  have hr : round_double (1 / 2) = 1 / 2 := by
    rw [round_double_eval (1 / 2) (-1) 4503599627370496 (by norm_num) (by norm_num)
      (by norm_num [abs_of_pos]) (by norm_num [abs_of_pos]) (by norm_num [abs_lt])]
    norm_num
  rw [h]
  unfold read_double
  simp only [starts_with_letters]
  simp [read_decimal, read_digits, read_exponent]
  norm_num
  rw [hr]

theorem atoi_neg_3 : atoi "-3" = -3 := by decide

theorem run_negative_payload :
    run Sys.start [Op.rec_update (some negative_payload)] =
        .ok ({ store := (rec_update_cb Store.empty (some negative_payload)).1,
               aux := fun _ => none }, [Event.updated true]) ∧
      (rec_update_cb Store.empty (some negative_payload)).1.get 42 "b1" =
        some { fairshare := -1 / 2, max_jobs := -3, current_jobs := 0 } := by
  refine ⟨rfl, ?_⟩
  simp only [rec_update_cb, negative_payload, atoi_42, atoi_neg_3, atof_neg_half]
  simp [Store.get, Store.set, Store.index, Store.empty]

theorem run_scenario_from_start :
    run Sys.start [Op.rec_update (some scenario_payload), Op.validate 1 (some (42, none))] =
      .ok ({ store := scenario_start.store.set 42 "b1"
               { fairshare := 1152921504606847 / 576460752303423488,
                 max_jobs := 2, current_jobs := 0 + 1 },
             aux := Function.update scenario_start.aux 1 (some (42, "b1")) },
           [Event.updated true, Event.admitted 1 (42, "b1")]) := by
  have h0 : step Sys.start (Op.rec_update (some scenario_payload)) =
      .ok (scenario_start, Event.updated true) := rfl
  have h1 := step_validate_accept scenario_start 42 "b1"
    { fairshare := 1152921504606847 / 576460752303423488,
      max_jobs := 2, current_jobs := 0 } 1 none scenario_start_get
    (Or.inr ⟨rfl, scenario_start_def_bank⟩) (by norm_num) (Or.inr (by decide))
  simp only [run, h0, h1]

/-- C15 on the scenario run from the empty store: the bulk update with
fairshare 0.002 and `max_jobs` 2, then the admission of job 1; the record of
user 42 under b1 holds values that are not negative. -/
theorem stored_values_nonneg_witness :
    run Sys.start [Op.rec_update (some scenario_payload), Op.validate 1 (some (42, none))] =
        .ok (scenario_admitted, [Event.updated true, Event.admitted 1 (42, "b1")]) ∧
      scenario_admitted.store.get 42 "b1" =
        some { fairshare := 1152921504606847 / 576460752303423488,
               max_jobs := 2, current_jobs := 0 + 1 } ∧
      (0 : ℚ) ≤ 1152921504606847 / 576460752303423488 ∧ (0 : Int) ≤ 2 :=
  ⟨run_scenario_from_start, Store.get_set_same _ _ _ _,
    stored_values_nonneg
      [Op.rec_update (some scenario_payload), Op.validate 1 (some (42, none))]
      scenario_admitted [Event.updated true, Event.admitted 1 (42, "b1")]
      (by
        intro m hm
        simp only [List.mem_cons, List.mem_singleton, List.not_mem_nil, or_false,
          Op.rec_update.injEq, Option.some.injEq, reduceCtorEq] at hm
        subst hm
        simp only [scenario_payload, atof_0_002, atoi_2]
        constructor <;> norm_num)
      run_scenario_from_start 42 "b1"
      { fairshare := 1152921504606847 / 576460752303423488, max_jobs := 2, current_jobs := 0 + 1 }
      (Store.get_set_same _ _ _ _)⟩

/-- C15 fails as stated: from the empty store, the bulk update with the
fairshare -0.5 and the `max_jobs` -3 leaves, under user 42 and bank b1, a
record that holds the fairshare -1/2 and the `max_jobs` -3. -/
theorem stored_values_nonneg_counterexample :
    ∃ t es, run Sys.start [Op.rec_update (some negative_payload)] = .ok (t, es) ∧
      t.store.get 42 "b1" =
        some { fairshare := -1 / 2, max_jobs := -3, current_jobs := 0 } ∧
      ∃ r, t.store.get 42 "b1" = some r ∧ r.fairshare < 0 ∧ r.max_jobs < 0 :=
  ⟨_, _, run_negative_payload.1, run_negative_payload.2,
    _, run_negative_payload.2, by norm_num, by norm_num⟩

/-! ## C18: entries are created by the bulk update only and never removed -/

theorem Store.set_users_isSome (s : Store) (u : Int) (b : String) (r x : bank_info)
    (hget : s.get u b = some r) (v : Int) :
    ((s.set u b x).users v).isSome = (s.users v).isSome := by
  by_cases hv : v = u
  · subst hv
    have hs : (s.users v).isSome = true := by
      cases hu : s.users v with
      | none => simp [Store.get, hu] at hget
      | some banks => rfl
    rw [hs]
    simp [Store.set]
  · simp [Store.set, Function.update, hv]

/-- The ways `inactive_cb` returns: with the store as it was, or with the
record the job is bound to lowered by one job. -/
theorem inactive_cb_ok_cases (s : Store) (aux : Option Ref) (args : Option Int) (o : Out)
    (h : inactive_cb s aux args = .ok o) :
    o.store = s ∨
      ∃ ref r, aux = some ref ∧ s.get ref.1 ref.2 = some r ∧
        o.store = s.set ref.1 ref.2
          { fairshare := r.fairshare, max_jobs := r.max_jobs,
            current_jobs := r.current_jobs - 1 } := by
  cases args with
  | none =>
    simp only [inactive_cb, Except.ok.injEq] at h
    left; rw [← h]
  | some uid =>
    cases haux : aux with
    | none => simp [inactive_cb, haux] at h
    | some ref =>
      cases hget : s.get ref.1 ref.2 with
      | none => simp [inactive_cb, haux, hget] at h
      | some r =>
        simp only [inactive_cb, haux, hget, Except.ok.injEq] at h
        right
        exact ⟨ref, r, rfl, hget, by rw [← h]⟩

/-- An invocation that returns keeps every record, and keeps the aux slot of
every job other than the job it validates. -/
theorem step_keeps (t : Sys) (op : Op) (t1 : Sys) (e : Event)
    (hstep : step t op = .ok (t1, e)) :
    (∀ u b r, t.store.get u b = some r → ∃ r1, t1.store.get u b = some r1) ∧
    (∀ job, (∀ a, op ≠ Op.validate job a) → t1.aux job = t.aux job) := by
  rcases step_ok_spec t op t1 e hstep with
    ⟨msg, _, hs, ha⟩ | ⟨hu, ha⟩ | ⟨job, args, ref, r, hop, _, hu, ha⟩ |
    ⟨_, _, ref, r, _, _, _, hu, ha⟩
  · refine ⟨fun u b r h => ?_, fun job _ => by rw [ha]⟩
    obtain ⟨r1, h1, _⟩ := rec_update_cb_keeps t.store msg u b r h
    exact ⟨r1, by rw [hs]; exact h1⟩
  · exact ⟨fun u b r h => ⟨r, by rw [Store.get_congr _ _ hu]; exact h⟩,
      fun job _ => by rw [ha]⟩
  · refine ⟨fun u b x h => ?_, fun j hj => ?_⟩
    · obtain ⟨r1, h1⟩ := Store.get_set_keeps t.store ref.1 ref.2
        { fairshare := r.fairshare, max_jobs := r.max_jobs,
          current_jobs := r.current_jobs + 1 } u b x h
      exact ⟨r1, by rw [Store.get_congr _ _ hu]; exact h1⟩
    · have hne : j ≠ job := fun hjj => hj args (by rw [hop, hjj])
      rw [ha]
      simp [Function.update, hne]
  · refine ⟨fun u b x h => ?_, fun job _ => by rw [ha]⟩
    obtain ⟨r1, h1⟩ := Store.get_set_keeps t.store ref.1 ref.2
      { fairshare := r.fairshare, max_jobs := r.max_jobs,
        current_jobs := r.current_jobs - 1 } u b x h
    exact ⟨r1, by rw [Store.get_congr _ _ hu]; exact h1⟩

theorem run_keeps (ops : List Op) :
    ∀ (t t1 : Sys) (es : List Event), run t ops = .ok (t1, es) →
      (∀ u b r, t.store.get u b = some r → ∃ r1, t1.store.get u b = some r1) ∧
      (∀ job, (∀ a, Op.validate job a ∉ ops) → t1.aux job = t.aux job) := by
  induction ops with
  | nil =>
    intro t t1 es hrun
    simp only [run, Except.ok.injEq, Prod.mk.injEq] at hrun
    rw [← hrun.1]
    exact ⟨fun u b r h => ⟨r, h⟩, fun _ _ => rfl⟩
  | cons op ops ih =>
    intro t t1 es hrun
    simp only [run] at hrun
    cases hs : step t op with
    | error f => simp [hs] at hrun
    | ok p =>
      obtain ⟨t2, e⟩ := p
      simp only [hs] at hrun
      cases hr : run t2 ops with
      | error f => simp [hr] at hrun
      | ok q =>
        obtain ⟨t3, es3⟩ := q
        simp only [hr, Except.ok.injEq, Prod.mk.injEq] at hrun
        rw [← hrun.1]
        obtain ⟨hk1, ha1⟩ := step_keeps t op t2 e hs
        obtain ⟨hk2, ha2⟩ := ih t2 t3 es3 hr
        refine ⟨fun u b r h => ?_, fun job hj => ?_⟩
        · obtain ⟨r1, h1⟩ := hk1 u b r h
          exact hk2 u b r1 h1
        · rw [ha2 job (fun a ha => hj a (List.mem_cons_of_mem _ ha))]
          exact ha1 job (fun a ha => hj a (by rw [ha]; exact List.mem_cons_self _ _))

/-- An admission reported by `validate_cb` has bound the job to an existing
record and raised that record's `current_jobs` by 1. -/
theorem step_validate_admitted (t : Sys) (job : Nat) (args : Option (Int × Option String))
    (t1 : Sys) (ref : Ref)
    (h : step t (Op.validate job args) = .ok (t1, Event.admitted job ref)) :
    t1.aux job = some ref ∧
      ∃ r, t.store.get ref.1 ref.2 = some r ∧
        t1.store.get ref.1 ref.2 =
          some { fairshare := r.fairshare, max_jobs := r.max_jobs,
                 current_jobs := r.current_jobs + 1 } := by
  simp only [step, Except.ok.injEq, Prod.mk.injEq] at h
  obtain ⟨ht, he⟩ := h
  rcases validate_cb_cases t.store (t.aux job) args with
    ⟨msg, hmsg, _, _, _⟩ | ⟨u, b, r, hget, _, _, hmsg, _, ha, hu⟩
  · simp [validate_event, hmsg] at he
  · simp only [validate_event, hmsg, ha, Event.admitted.injEq, true_and] at he
    subst he
    rw [← ht]
    refine ⟨by simp [ha], r, hget, ?_⟩
    show (validate_cb t.store (t.aux job) args).store.get u b = _
    rw [Store.get_congr _ _ hu]
    exact Store.get_set_same _ _ _ _

/-- C18. Once a job has been admitted and bound to a record, after any later
sequence of invocations that return, among which the job is not validated
again, the job is still bound to that record, the record still exists under
the same key, and `inactive_cb` on the job returns and lowers `current_jobs`
of that very record by 1. This rests on what each callback does to `users`:
`validate_cb` and, when it returns, `inactive_cb` change no key, no fairshare
and no `max_jobs`; `priority_cb`, when it returns, leaves the store as it was;
`rec_update_cb` keeps every user, every record and every `current_jobs`. -/
theorem entries_stable (t : Sys) (job : Nat) (args : Option (Int × Option String))
    (ref : Ref) (t1 : Sys) (ops : List Op) (t2 : Sys) (es : List Event) (uid : Int)
    (hadm : step t (Op.validate job args) = .ok (t1, Event.admitted job ref))
    (hno : ∀ a, Op.validate job a ∉ ops)
    (hrun : run t1 ops = .ok (t2, es)) :
    (t2.aux job = some ref ∧
      ∃ r2, t2.store.get ref.1 ref.2 = some r2 ∧
        step t2 (Op.inactive job (some uid)) =
          .ok ({ store := t2.store.set ref.1 ref.2
                   { fairshare := r2.fairshare, max_jobs := r2.max_jobs,
                     current_jobs := r2.current_jobs - 1 },
                 aux := t2.aux }, Event.released job ref)) ∧
    (∀ (s : Store) (aux : Option Ref) (a : Option (Int × Option String)),
      (∀ u b, ((validate_cb s aux a).store.get u b).map (fun y => (y.fairshare, y.max_jobs)) =
        (s.get u b).map (fun y => (y.fairshare, y.max_jobs))) ∧
      (∀ u, ((validate_cb s aux a).store.users u).isSome = (s.users u).isSome)) ∧
    (∀ (s : Store) (aux : Option Ref) (a : Option (Int × Int × Option String)) (o : Out),
      priority_cb s aux a = .ok o → o.store = s) ∧
    (∀ (s : Store) (aux : Option Ref) (a : Option Int) (o : Out),
      inactive_cb s aux a = .ok o →
      (∀ u b, (o.store.get u b).map (fun y => (y.fairshare, y.max_jobs)) =
        (s.get u b).map (fun y => (y.fairshare, y.max_jobs))) ∧
      (∀ u, (o.store.users u).isSome = (s.users u).isSome)) ∧
    (∀ (s : Store) (msg : Option Payload),
      (∀ u b r, s.get u b = some r →
        ∃ r1, (rec_update_cb s msg).1.get u b = some r1 ∧
          r1.current_jobs = r.current_jobs) ∧
      (∀ u, s.users u ≠ none → (rec_update_cb s msg).1.users u ≠ none)) := by
  refine ⟨?_, ?_, ?_, ?_, ?_⟩
  · obtain ⟨haux1, r, _, hget1⟩ := step_validate_admitted t job args t1 ref hadm
    obtain ⟨hk, ha⟩ := run_keeps ops t1 t2 es hrun
    have haux2 : t2.aux job = some ref := by rw [ha job hno]; exact haux1
    obtain ⟨r2, hr2⟩ := hk _ _ _ hget1
    exact ⟨haux2, r2, hr2, step_inactive_bound t2 ref.1 ref.2 r2 job uid hr2 haux2⟩
  · intro s aux a
    rcases validate_cb_cases s aux a with
      ⟨_, _, _, _, hu⟩ | ⟨u0, b0, r, hget, _, _, _, _, _, hu⟩
    · exact ⟨fun u b => by rw [Store.get_congr _ _ hu], fun u => by rw [hu]⟩
    · refine ⟨fun u b => ?_, fun u => ?_⟩
      · rw [Store.get_congr _ _ hu]
        exact Store.get_set_fields s u0 b0 r
          { fairshare := r.fairshare, max_jobs := r.max_jobs,
            current_jobs := r.current_jobs + 1 } hget rfl rfl u b
      · rw [hu]
        exact Store.set_users_isSome s u0 b0 r _ hget u
  · intro s aux a o h
    cases a with
    | none =>
      simp only [priority_cb, Except.ok.injEq] at h
      rw [← h]
    | some x =>
      obtain ⟨urgency, userid, bank⟩ := x
      simp only [priority_cb] at h
      cases hp : priority_calculation s aux userid bank urgency with
      | error f => simp [hp] at h
      | ok p =>
        simp only [hp, Except.ok.injEq] at h
        rw [← h]
  · intro s aux a o h
    rcases inactive_cb_ok_cases s aux a o h with hs | ⟨ref0, r, _, hget, hs⟩
    · rw [hs]
      exact ⟨fun _ _ => rfl, fun _ => rfl⟩
    · rw [hs]
      exact ⟨fun u b => Store.get_set_fields s ref0.1 ref0.2 r
          { fairshare := r.fairshare, max_jobs := r.max_jobs,
            current_jobs := r.current_jobs - 1 } hget rfl rfl u b,
        fun u => Store.set_users_isSome s ref0.1 ref0.2 r _ hget u⟩
  · intro s msg
    refine ⟨fun u b r h => rec_update_cb_keeps s msg u b r h, fun u hu => ?_⟩
    cases msg with
    | none => exact hu
    | some m =>
      by_cases huu : u = atoi m.userid
      · subst huu
        simp [rec_update_cb, Store.set]
      · have h1 : (rec_update_cb s (some m)).1.users u = s.users u := by
          simp [rec_update_cb, Store.set, Function.update, huu]
        rw [h1]; exact hu

theorem scenario_admitted_step :
    step scenario_start (Op.validate 1 (some (42, none))) =
      .ok (scenario_admitted, Event.admitted 1 (42, "b1")) :=
  step_validate_accept scenario_start 42 "b1"
    { fairshare := 1152921504606847 / 576460752303423488,
      max_jobs := 2, current_jobs := 0 } 1 none scenario_start_get
    (Or.inr ⟨rfl, scenario_start_def_bank⟩) (by norm_num) (Or.inr (by decide))

theorem scenario_later_run :
    run scenario_admitted
        [Op.validate 2 (some (42, some "b1")), Op.rec_update (some scenario_payload)] =
      .ok (scenario_later, [Event.admitted 2 (42, "b1"), Event.updated true]) := by
  have h2 : step scenario_admitted (Op.validate 2 (some (42, some "b1"))) =
      .ok ({ store := scenario_admitted.store.set 42 "b1"
               { fairshare := 1152921504606847 / 576460752303423488,
                 max_jobs := 2, current_jobs := 0 + 1 + 1 },
             aux := Function.update scenario_admitted.aux 2 (some (42, "b1")) },
           Event.admitted 2 (42, "b1")) :=
    step_validate_accept scenario_admitted 42 "b1"
      { fairshare := 1152921504606847 / 576460752303423488,
        max_jobs := 2, current_jobs := 0 + 1 } 2 (some "b1")
      (Store.get_set_same _ _ _ _) (Or.inl rfl) (by norm_num) (Or.inr (by decide))
  simp only [run, h2]
  rfl

/-- C18 on the scenario: job 1 is admitted, then job 2 is admitted and a bulk
update rewrites the record; job 1 is still bound to the record of user 42
under b1, which still exists, and its cleanup lowers that record. -/
theorem entries_stable_witness :
    scenario_later.aux 1 = some (42, "b1") ∧
      ∃ r2, scenario_later.store.get 42 "b1" = some r2 ∧
        step scenario_later (Op.inactive 1 (some 42)) =
          .ok ({ store := scenario_later.store.set 42 "b1"
                   { fairshare := r2.fairshare, max_jobs := r2.max_jobs,
                     current_jobs := r2.current_jobs - 1 },
                 aux := scenario_later.aux }, Event.released 1 (42, "b1")) :=
  (entries_stable scenario_start 1 (some (42, none)) (42, "b1") scenario_admitted
    [Op.validate 2 (some (42, some "b1")), Op.rec_update (some scenario_payload)]
    scenario_later [Event.admitted 2 (42, "b1"), Event.updated true] 42
    scenario_admitted_step
    (by
      intro a ha
      simp at ha)
    scenario_later_run).1

/-! ## C19, C20: order and range of the priority -/

/-- C19, as the code has it. For an urgency `u` of the `int` range that is
neither sentinel and two bound records with fairshares `f1 ≤ f2` such that
`100000 * f1 + (u - 16)` is not negative (as it is for every `u ≥ 16` and
`f1 ≥ 0`) and `100000 * f2 + (u - 16)` is at most 2147483647, the priority
computed for `f1` is at most the priority computed for `f2`. -/
theorem priority_monotone (s1 s2 : Store) (ref1 ref2 : Ref) (r1 r2 : bank_info)
    (uid1 uid2 : Int) (bank1 bank2 : Option String) (urgency : Int)
    (hhold : urgency ≠ FLUX_JOB_URGENCY_HOLD)
    (hexp : urgency ≠ FLUX_JOB_URGENCY_EXPEDITE)
    (hu1 : -2147483632 ≤ urgency) (hu2 : urgency ≤ 2147483647)
    (h1 : s1.get ref1.1 ref1.2 = some r1) (h2 : s2.get ref2.1 ref2.2 = some r2)
    (hf : r1.fairshare ≤ r2.fairshare)
    (hpos : 0 ≤ 100000 * r1.fairshare + ((urgency : ℚ) - 16))
    (hmax : 100000 * r2.fairshare + ((urgency : ℚ) - 16) ≤ 2147483647) :
    ∃ p1 p2, priority_calculation s1 (some ref1) uid1 bank1 urgency = .ok (p1, none) ∧
      priority_calculation s2 (some ref2) uid2 bank2 urgency = .ok (p2, none) ∧
      p1 ≤ p2 := by
  refine ⟨_, _, priority_calculation_bound s1 ref1 r1 uid1 bank1 urgency h1 hhold hexp,
    priority_calculation_bound s2 ref2 r2 uid2 bank2 urgency h2 hhold hexp, ?_⟩
  have hcast : ((urgency - 16 : Int) : ℚ) = (urgency : ℚ) - 16 := by push_cast; rfl
  have hu1q : (-2147483632 : ℚ) ≤ (urgency : ℚ) := by exact_mod_cast hu1
  have hu2q : (urgency : ℚ) ≤ 2147483647 := by exact_mod_cast hu2
  have hmono := line_83_mono r1.fairshare r2.fairshare ((urgency - 16 : Int) : ℚ) hf
  have hdn := line_83_ge r1.fairshare (urgency - 16) 0
    (by rw [abs_lt]; push_cast; constructor <;> norm_num <;> linarith)
    (by norm_num) (by rw [hcast]; exact_mod_cast hpos)
  have hup := line_83_le r2.fairshare (urgency - 16) 2147483647
    (by rw [abs_lt]; push_cast; constructor <;> norm_num <;> linarith)
    (by norm_num [abs_of_pos]) (by rw [hcast]; exact_mod_cast hmax)
  have hdn0 : (0 : ℚ) ≤ round_double (round_double (100000 * r1.fairshare) +
      ((urgency - 16 : Int) : ℚ)) := by exact_mod_cast hdn
  have hup0 : round_double (round_double (100000 * r2.fairshare) +
      ((urgency - 16 : Int) : ℚ)) ≤ 2147483647 := by exact_mod_cast hup
  have e1 := (line_85_of_range (round_double (round_double (100000 * r1.fairshare) +
      ((urgency - 16 : Int) : ℚ))) (by rw [abs_of_nonneg hdn0]; linarith)).1
  have e2 := (line_85_of_range (round_double (round_double (100000 * r2.fairshare) +
      ((urgency - 16 : Int) : ℚ))) (by rw [abs_of_nonneg (by linarith)]; linarith)).1
  rw [e1, e2, abs_of_nonneg hdn0, abs_of_nonneg (by linarith)]
  exact c_round_mono _ _ hmono

/-- C19 on `low_store` with urgency 16: the record with fairshare 0.00001 gets
at most the priority of the record with fairshare 0.0001. -/
theorem priority_monotone_witness :
    ∃ p1 p2, priority_calculation low_store (some (1, "a")) 1 none 16 = .ok (p1, none) ∧
      priority_calculation low_store (some (1, "b")) 1 none 16 = .ok (p2, none) ∧
      p1 ≤ p2 :=
  priority_monotone low_store low_store (1, "a") (1, "b")
    { fairshare := 5902958103587057 / 590295810358705651712, max_jobs := 0, current_jobs := 1 }
    { fairshare := 7378697629483821 / 73786976294838206464, max_jobs := 0, current_jobs := 1 }
    1 1 none none 16 (by decide) (by decide) (by decide) (by decide)
    (by simp [Store.get, low_store]) (by simp [Store.get, low_store])
    (by norm_num) (by norm_num) (by norm_num)

/-- C19 fails as stated: with urgency 1, which is neither sentinel, the record
of `low_store` with fairshare 0.00001 gets priority 14 and the record with the
higher fairshare 0.0001 gets priority 5. -/
theorem priority_monotone_counterexample :
    (0 : ℚ) ≤ 5902958103587057 / 590295810358705651712 ∧
      (5902958103587057 / 590295810358705651712 : ℚ) ≤ 7378697629483821 / 73786976294838206464 ∧
      priority_calculation low_store (some (1, "a")) 1 none 1 = .ok (14, none) ∧
      priority_calculation low_store (some (1, "b")) 1 none 1 = .ok (5, none) ∧
      ¬ ((14 : Int) ≤ 5) := by
  have ha := priority_calculation_bound low_store (1, "a")
    { fairshare := 5902958103587057 / 590295810358705651712, max_jobs := 0, current_jobs := 1 }
    1 none 1 (by simp [Store.get, low_store]) (by decide) (by decide)
  have hb := priority_calculation_bound low_store (1, "b")
    { fairshare := 7378697629483821 / 73786976294838206464, max_jobs := 0, current_jobs := 1 }
    1 none 1 (by simp [Store.get, low_store]) (by decide) (by decide)
  have pa : round_double (100000 * (5902958103587057 / 590295810358705651712 : ℚ)) = 1 := by
    rw [round_double_eval _ 0 4503599627370496 (by norm_num) (by norm_num)
      (by norm_num [abs_of_pos]) (by norm_num [abs_of_pos]) (by norm_num [abs_lt])]
    norm_num
  have pb : round_double (100000 * (7378697629483821 / 73786976294838206464 : ℚ)) = 10 := by
    rw [round_double_eval _ 3 5629499534213120 (by norm_num) (by norm_num)
      (by norm_num [abs_of_pos]) (by norm_num [abs_of_pos]) (by norm_num [abs_lt])]
    norm_num
  have sa : round_double ((1 : ℚ) + (((1 - 16 : Int)) : ℚ)) = ((-14 : Int) : ℚ) := by
    have h := round_double_intCast (-14) (by norm_num [abs_lt])
    have e : (1 : ℚ) + (((1 - 16 : Int)) : ℚ) = ((-14 : Int) : ℚ) := by norm_num
    rw [e, h]
  have sb : round_double ((10 : ℚ) + (((1 - 16 : Int)) : ℚ)) = ((-5 : Int) : ℚ) := by
    have h := round_double_intCast (-5) (by norm_num [abs_lt])
    have e : (10 : ℚ) + (((1 - 16 : Int)) : ℚ) = ((-5 : Int) : ℚ) := by norm_num
    rw [e, h]
  refine ⟨by norm_num, by norm_num, ?_, ?_, by decide⟩
  · rw [ha]
    show Except.ok (to_int64 (c_abs (c_round (round_double (round_double
      (100000 * (5902958103587057 / 590295810358705651712 : ℚ)) +
        (((1 - 16 : Int)) : ℚ))))), none) = _
    rw [pa, sa, c_round_intCast]
    rfl
  · rw [hb]
    show Except.ok (to_int64 (c_abs (c_round (round_double (round_double
      (100000 * (7378697629483821 / 73786976294838206464 : ℚ)) +
        (((1 - 16 : Int)) : ℚ))))), none) = _
    rw [pb, sb, c_round_intCast]
    rfl

/-- C20. For a job bound to a record with a fairshare between 0 and 1 and an
urgency between 1 and 30, `priority_calculation` returns, raising no
exception, a priority `p` with `FLUX_JOB_PRIORITY_MIN ≤ p ≤ 100014`, which is
below `FLUX_JOB_PRIORITY_MAX`. -/
theorem priority_bounds (s : Store) (ref : Ref) (r : bank_info) (userid : Int)
    (bank : Option String) (urgency : Int) (hget : s.get ref.1 ref.2 = some r)
    (hf0 : 0 ≤ r.fairshare) (hf1 : r.fairshare ≤ 1)
    (hu1 : 1 ≤ urgency) (hu30 : urgency ≤ 30) :
    ∃ p, priority_calculation s (some ref) userid bank urgency = .ok (p, none) ∧
      FLUX_JOB_PRIORITY_MIN ≤ p ∧ p ≤ 100014 ∧ p < FLUX_JOB_PRIORITY_MAX := by
  have hhold : urgency ≠ FLUX_JOB_URGENCY_HOLD := by
    unfold FLUX_JOB_URGENCY_HOLD; omega
  have hexp : urgency ≠ FLUX_JOB_URGENCY_EXPEDITE := by
    unfold FLUX_JOB_URGENCY_EXPEDITE; omega
  refine ⟨_, priority_calculation_bound s ref r userid bank urgency hget hhold hexp, ?_⟩
  have hu1q : (1 : ℚ) ≤ (urgency : ℚ) := by exact_mod_cast hu1
  have hu30q : (urgency : ℚ) ≤ 30 := by exact_mod_cast hu30
  have hdn := line_83_ge r.fairshare (urgency - 16) (-15)
    (by rw [abs_lt]; push_cast; constructor <;> norm_num <;> linarith)
    (by norm_num [abs_lt]) (by push_cast; linarith)
  have hup := line_83_le r.fairshare (urgency - 16) 100014
    (by rw [abs_lt]; push_cast; constructor <;> norm_num <;> linarith)
    (by norm_num [abs_of_pos]) (by push_cast; linarith)
  push_cast at hdn hup
  have habs : |round_double (round_double (100000 * r.fairshare) +
      ((urgency - 16 : Int) : ℚ))| ≤ 100014 := by
    rw [abs_le]
    push_cast
    constructor <;> linarith
  obtain ⟨hval, h0, _⟩ := line_85_of_range _ (le_trans habs (by norm_num))
  have hle := c_round_mono _ ((100014 : Int) : ℚ) (by push_cast; exact habs)
  rw [c_round_intCast] at hle
  rw [hval]
  refine ⟨h0, hle, ?_⟩
  unfold FLUX_JOB_PRIORITY_MAX
  omega

/-- C20 on the scenario: fairshare 0.002 and urgency 16. -/
theorem priority_bounds_witness :
    ∃ p, priority_calculation scenario_start.store (some (42, "b1")) 42 none 16 =
        .ok (p, none) ∧
      FLUX_JOB_PRIORITY_MIN ≤ p ∧ p ≤ 100014 ∧ p < FLUX_JOB_PRIORITY_MAX :=
  priority_bounds scenario_start.store (42, "b1")
    { fairshare := 1152921504606847 / 576460752303423488, max_jobs := 2,
      current_jobs := 0 } 42 none 16
    scenario_start_get (by norm_num) (by norm_num) (by decide) (by decide)

/-! ## The model of the C library on sample inputs -/

theorem round_half_even_tie (n : Int) :
    round_half_even ((n : ℚ) + 1 / 2) = if n % 2 = 0 then n else n + 1 := by
  have hf : Int.floor ((n : ℚ) + 1 / 2) = n := by
    rw [Int.floor_eq_iff]
    constructor <;> linarith
  unfold round_half_even
  rw [hf]
  have h1 : ¬ ((n : ℚ) + 1 / 2 - (n : ℚ) < 1 / 2) := by
    intro h; linarith
  have h2 : ¬ ((1 : ℚ) / 2 < (n : ℚ) + 1 / 2 - (n : ℚ)) := by
    intro h; linarith
  rw [if_neg h1, if_neg h2]

/-- The value of the rounding to binary64 at a halfway case, from the binade
`e` of `q` and the integer `m` just below `q` in units of `2 ^ (e - 52)`: the
even one of `m` and `m + 1` is taken. -/
theorem round_double_tie (q : ℚ) (e m : Int) (he : -1022 ≤ e) (he2 : e ≤ 1023)
    (hlo : (2 : ℚ) ^ e ≤ |q|) (hhi : |q| < (2 : ℚ) ^ (e + 1))
    (hm : q / (2 : ℚ) ^ (e - 52) = (m : ℚ) + 1 / 2) :
    round_double q = ((if m % 2 = 0 then m else m + 1 : Int) : ℚ) * (2 : ℚ) ^ (e - 52) := by
  have hb := binade_eq q e he hlo hhi
  have hg : grid_round (binade q) q =
      ((if m % 2 = 0 then m else m + 1 : Int) : ℚ) * (2 : ℚ) ^ (e - 52) := by
    unfold grid_round
    rw [hb, hm, round_half_even_tie]
  have hup : grid_round (binade q) q ≤ (2 : ℚ) ^ (e + 1) := by
    rw [hb, ← grid_round_zpow e (e + 1) (by omega)]
    exact grid_round_mono _ _ _ (le_trans (le_abs_self q) hhi.le)
  have hdn : -(2 : ℚ) ^ (e + 1) ≤ grid_round (binade q) q := by
    rw [hb, ← grid_round_neg_zpow e (e + 1) (by omega)]
    exact grid_round_mono _ _ _ (by linarith [neg_abs_le q])
  have hpow : (2 : ℚ) ^ (e + 1) ≤ double_inf := by
    unfold double_inf
    have : (2 : ℚ) ^ (e + 1) ≤ (2 : ℚ) ^ ((1024 : ℕ) : Int) :=
      zpow_le_zpow_right₀ (by norm_num) (by push_cast; omega)
    rwa [zpow_natCast] at this
  unfold round_double
  rw [min_eq_right (by linarith), max_eq_right (by linarith), hg]

/-- The value of the rounding to binary64 below the least normal number, from
the integer `m` nearest to `q` in units of `2 ^ (-1074)`. -/
theorem round_double_subnormal (q : ℚ) (m : Int) (h : |q| < (2 : ℚ) ^ (-1022 : Int))
    (hm : |q / (2 : ℚ) ^ (-1074 : Int) - (m : ℚ)| < 1 / 2) :
    round_double q = (m : ℚ) * (2 : ℚ) ^ (-1074 : Int) := by
  have hb : binade q = -1022 := by
    apply le_antisymm _ (binade_ge q)
    exact binade_le_of_abs_lt q (-1022) (le_refl _)
      (lt_trans h (zpow_lt_zpow_right₀ (by norm_num) (by norm_num)))
  have hg : grid_round (binade q) q = (m : ℚ) * (2 : ℚ) ^ (-1074 : Int) := by
    unfold grid_round
    rw [hb]
    have : ((-1022 : Int) - 52) = -1074 := by norm_num
    rw [this, round_half_even_eq _ m hm]
  have hup : grid_round (binade q) q ≤ (2 : ℚ) ^ (-1022 : Int) := by
    rw [hb, ← grid_round_zpow (-1022) (-1022) (by norm_num)]
    exact grid_round_mono _ _ _ (le_trans (le_abs_self q) h.le)
  have hdn : -(2 : ℚ) ^ (-1022 : Int) ≤ grid_round (binade q) q := by
    rw [hb, ← grid_round_neg_zpow (-1022) (-1022) (by norm_num)]
    exact grid_round_mono _ _ _ (by linarith [neg_abs_le q])
  have hpow : (2 : ℚ) ^ (-1022 : Int) ≤ double_inf := by
    unfold double_inf
    have : (2 : ℚ) ^ (-1022 : Int) ≤ (2 : ℚ) ^ ((1024 : ℕ) : Int) :=
      zpow_le_zpow_right₀ (by norm_num) (by norm_num)
    rwa [zpow_natCast] at this
  unfold round_double
  rw [min_eq_right (by linarith), max_eq_right (by linarith), hg]

/-- A number from `2 ^ 1024` on rounds to the infinity. -/
theorem round_double_overflow (q : ℚ) (h : (2 : ℚ) ^ (1024 : Int) ≤ q) :
    round_double q = double_inf := by
  have hb : binade ((2 : ℚ) ^ (1024 : Int)) ≤ 1024 :=
    binade_le_of_abs_lt _ 1024 (by norm_num)
      (by rw [abs_of_pos (by positivity)]; exact zpow_lt_zpow_right₀ (by norm_num) (by norm_num))
  have h1 : grid_round (binade ((2 : ℚ) ^ (1024 : Int))) ((2 : ℚ) ^ (1024 : Int)) =
      (2 : ℚ) ^ (1024 : Int) := grid_round_zpow _ 1024 (by omega)
  have h2 := grid_round_binade_mono _ _ h
  rw [h1] at h2
  have h3 : double_inf ≤ grid_round (binade q) q := by
    unfold double_inf
    have e : (2 : ℚ) ^ (1024 : Int) = (2 : ℚ) ^ (1024 : ℕ) := by
      rw [← zpow_natCast]; rfl
    rw [← e]
    exact h2
  unfold round_double
  rw [min_eq_left h3, max_eq_right (by linarith [double_inf_pos])]

/-- The conversion `atoi` beyond the range of `long` and on surrounding
text. -/
theorem atoi_saturates :
    atoi "99999999999999999999" = -1 ∧ atoi "-99999999999999999999" = 0 ∧
      atoi "  +7x" = 7 ∧ atoi "-2147483649" = 2147483647 ∧
      atoi "\t\n\x0b\x0c\r 7" = 7 ∧ atoi "\x087" = 0 ∧ atoi "\x0e7" = 0 := by
  decide

/-- The conversion `atof` on the infinities and on NaN. -/
theorem atof_special :
    atof "inf" = double_inf ∧ atof "-Infinity" = -double_inf ∧
      atof "nan" = double_nan ∧ atof "-NaN" = double_nan ∧ double_nan < 0 := by
  have h1 : atof "inf" = read_double ['i', 'n', 'f'] := by
    simp [atof, isspace, reads_nan, starts_with_letters]
  have h2 : atof "-Infinity" = - read_double ['I', 'n', 'f', 'i', 'n', 'i', 't', 'y'] := by
    simp [atof, isspace, reads_nan, starts_with_letters]
  have h3 : atof "nan" = double_nan := by
    simp [atof, isspace, reads_nan, starts_with_letters]
  have h4 : atof "-NaN" = double_nan := by
    simp [atof, isspace, reads_nan, starts_with_letters]
  have h5 : double_nan < 0 := by
    unfold double_nan
    linarith [double_inf_pos]
  rw [h1, h2, h3, h4]
  refine ⟨?_, ?_, rfl, rfl, h5⟩
  · unfold read_double
    simp [starts_with_letters]
  · unfold read_double
    simp [starts_with_letters]

/-- The conversion `atof` on hexadecimal constants. -/
theorem atof_hexadecimal :
    atof "0x10" = 16 ∧ atof "0X1p-1" = 1 / 2 ∧ atof "0x" = 0 ∧ atof "0xaF" = 175 := by
  have h1 : atof "0x10" = read_double ['0', 'x', '1', '0'] := by
    simp [atof, isspace, reads_nan, starts_with_letters]
  have h2 : atof "0X1p-1" = read_double ['0', 'X', '1', 'p', '-', '1'] := by
    simp [atof, isspace, reads_nan, starts_with_letters]
  have h3 : atof "0x" = read_double ['0', 'x'] := by
    simp [atof, isspace, reads_nan, starts_with_letters]
  have h4 : atof "0xaF" = read_double ['0', 'x', 'a', 'F'] := by
    simp [atof, isspace, reads_nan, starts_with_letters]
  have r16 : round_double 16 = 16 := by
    have := round_double_intCast 16 (by norm_num)
    simpa using this
  have r175 : round_double 175 = 175 := by
    have := round_double_intCast 175 (by norm_num)
    simpa using this
  have rh : round_double (1 / 2) = 1 / 2 := by
    rw [round_double_eval (1 / 2) (-1) 4503599627370496 (by norm_num) (by norm_num)
      (by norm_num [abs_of_pos]) (by norm_num [abs_of_pos]) (by norm_num [abs_lt])]
    norm_num
  rw [h1, h2, h3, h4]
  unfold read_double
  simp only [starts_with_letters]
  refine ⟨?_, ?_, ?_, ?_⟩
  · simp [read_hexadecimal, read_hex_digits, hex_value, read_binary_exponent]
    exact r16
  · simp [read_hexadecimal, read_hex_digits, hex_value, read_binary_exponent, read_digits]
    norm_num
    rw [rh]
  · simp [read_hexadecimal, read_hex_digits, hex_value, read_binary_exponent]
  · simp [read_hexadecimal, read_hex_digits, hex_value, read_binary_exponent]
    exact r175

theorem read_double_decimal (c : Char) (cs : List Char) (h0 : c ≠ '0')
    (hi : starts_with_letters 'i' 'I' 'n' 'N' 'f' 'F' (c :: cs) = false) :
    read_double (c :: cs) = round_double (read_decimal (c :: cs)) := by
  unfold read_double
  rw [hi]
  simp only [Bool.false_eq_true, if_false]
  split
  · rename_i heq
    simp only [List.cons.injEq] at heq
    exact absurd heq.1 h0
  · rfl

/-- The conversion `atof` underflows to 0 and overflows to the infinity. -/
theorem atof_range : atof "1e-400" = 0 ∧ atof "1e400" = double_inf := by
  have h1 : atof "1e-400" = read_double ['1', 'e', '-', '4', '0', '0'] := by
    simp [atof, isspace, reads_nan, starts_with_letters]
  have h2 : atof "1e400" = read_double ['1', 'e', '4', '0', '0'] := by
    simp [atof, isspace, reads_nan, starts_with_letters]
  have d1 : read_decimal ['1', 'e', '-', '4', '0', '0'] = (10 : ℚ) ^ (-400 : Int) := by
    simp [read_decimal, read_digits, read_exponent]
  have d2 : read_decimal ['1', 'e', '4', '0', '0'] = (10 : ℚ) ^ (400 : Int) := by
    simp [read_decimal, read_digits, read_exponent]
  have r1 : round_double ((10 : ℚ) ^ (-400 : Int)) = 0 := by
    rw [round_double_subnormal _ 0 (by norm_num [abs_of_pos]) (by norm_num [abs_of_pos])]
    simp
  have r2 : round_double ((10 : ℚ) ^ (400 : Int)) = double_inf :=
    round_double_overflow _ (by norm_num)
  constructor
  · rw [h1, read_double_decimal _ _ (by decide) (by simp [starts_with_letters]), d1, r1]
  · rw [h2, read_double_decimal _ _ (by decide) (by simp [starts_with_letters]), d2, r2]

/-- The rounding to binary64 takes the even neighbour at a halfway case. -/
theorem round_double_ties :
    round_double 9007199254740993 = 9007199254740992 ∧
      round_double 9007199254740995 = 9007199254740996 := by
  constructor
  · rw [round_double_tie 9007199254740993 53 4503599627370496 (by norm_num) (by norm_num)
      (by norm_num [abs_of_pos]) (by norm_num [abs_of_pos]) (by norm_num)]
    norm_num
  · rw [round_double_tie 9007199254740995 53 4503599627370497 (by norm_num) (by norm_num)
      (by norm_num [abs_of_pos]) (by norm_num [abs_of_pos]) (by norm_num)]
    norm_num

end MfPriority
